import Mathlib

/-!
# A shallow embedding of `range.c` (the Range class of matzruby)

The C functions of `range.c` are transcribed as Lean functions of the same name.

* A Ruby `VALUE` is a term of `Value`; a Range instance is an `RObject`, the table of its three
  instance variables `begin`, `end` and `excl`.
* C `long` arithmetic is arithmetic on `Int` followed by `wrapLong` (two's complement, 64 bits).
* Methods that `range.c` sends to its operands (`<=>`, `succ`, the block of an iterator)
  are recorded in a log of `Event`s, so that "what was visited, in which order" is a value.
* Loops whose termination depends on the operands take a `fuel : Nat`; running out of fuel is the
  outcome `Outcome.outOfFuel`, distinct from returning and from raising.
-/

namespace MatzRuby

/-! ## Machine integers (`ruby.h`, LP64) -/

/-- Largest C `long` (LP64: 64 bits, two's complement). -/
def LONG_MAX : Int := 2 ^ 63 - 1

/-- Smallest C `long`. -/
def LONG_MIN : Int := -(2 ^ 63)

/-- Largest C `int` on LP64. -/
def INT_MAX : Int := 2 ^ 31 - 1

/-- Smallest C `int` on LP64. -/
def INT_MIN : Int := -(2 ^ 31)

/-- The macro `FIXNUM_MAX` of ruby.h, `LONG_MAX >> 1`. -/
def FIXNUM_MAX : Int := 2 ^ 62 - 1

/-- The macro `FIXNUM_MIN` of ruby.h, `LONG_MIN >> 1`. -/
def FIXNUM_MIN : Int := -(2 ^ 62)

/-- Result of a `long` operation whose exact value is `x`: reduction modulo `2 ^ 64` into
`LONG_MIN .. LONG_MAX`. -/
def wrapLong (x : Int) : Int := (x + 2 ^ 63) % 2 ^ 64 - 2 ^ 63

/-- The macro `FIXABLE` of ruby.h: the integer fits an immediate Fixnum. -/
def FIXABLE (i : Int) : Bool := decide (FIXNUM_MIN ≤ i) && decide (i ≤ FIXNUM_MAX)

/-! ## Values, exceptions, effects -/

/-- A Ruby value. `int i` is an Integer: a Fixnum (machine integer) when `FIXABLE i`, a Bignum
otherwise. `obj klass addr` is any other heap object, of class `klass`, at address `addr`. -/
inductive Value where
  | Qnil
  | Qfalse
  | Qtrue
  | int (i : Int)
  | float (q : ℚ)
  | str (s : String)
  | obj (klass : Nat) (addr : Nat)
  deriving DecidableEq, Repr

/-- An exception raised by `rb_raise` (class and message), or by a method of an operand. -/
inductive Exc where
  | rb_eArgError (msg : String)
  | rb_eTypeError (msg : String)
  | rb_eRangeError (msg : String)
  | rb_eNameError (msg : String)
  | user (tag : Nat)
  deriving DecidableEq, Repr

/-- A message sent by range.c to one of its operands, or a call of the iterator block. -/
inductive Event where
  | cmp (a b : Value)
  | succ (v : Value)
  | binop (op : String) (a b : Value)
  | yield (v : Value)
  deriving DecidableEq, Repr

/-- How a C function ends: it returns, it raises (longjmp), or the model ran out of fuel. -/
inductive Outcome (α : Type) where
  | ret (a : α)
  | raised (e : Exc)
  | outOfFuel
  deriving DecidableEq, Repr

/-- A computation of range.c: the events it caused, in order, and how it ended. -/
structure Eff (α : Type) where
  log : List Event
  out : Outcome α
  deriving DecidableEq, Repr

namespace Eff

/-- Return without any event. -/
def pure {α : Type} (a : α) : Eff α := ⟨[], .ret a⟩

/-- The function `rb_raise`: raise without any event. -/
def raise {α : Type} (e : Exc) : Eff α := ⟨[], .raised e⟩

/-- Fuel exhausted. -/
def stuck {α : Type} : Eff α := ⟨[], .outOfFuel⟩

/-- Sequencing: the continuation runs only when the first computation returns. -/
def bind {α β : Type} (m : Eff α) (f : α → Eff β) : Eff β :=
  match m.out with
  | .ret a => ⟨m.log ++ (f a).log, (f a).out⟩
  | .raised e => ⟨m.log, .raised e⟩
  | .outOfFuel => ⟨m.log, .outOfFuel⟩

/-- The values handed to the block, in order. -/
def visited {α : Type} (m : Eff α) : List Value :=
  m.log.filterMap (fun ev => match ev with
    | .yield v => some v
    | _ => none)

/-- The pairs on which `<=>` was sent, in order. -/
def compared {α : Type} (m : Eff α) : List (Value × Value) :=
  m.log.filterMap (fun ev => match ev with
    | .cmp a b => some (a, b)
    | _ => none)

end Eff

instance : Monad Eff where
  pure := Eff.pure
  bind := Eff.bind

/-- The function `rb_yield`: call the block with `v`. The block is taken to return normally. -/
def rb_yield (v : Value) : Eff Unit := ⟨[.yield v], .ret ()⟩

/-- Lift the result of a method of an operand, after logging the send. -/
def send (ev : Event) (r : Except Exc Value) : Eff Value :=
  match r with
  | .ok v => ⟨[ev], .ret v⟩
  | .error e => ⟨[ev], .raised e⟩

/-- The part of the object system that range.c calls and that is not in range.c: the methods of
operands that are not built-in numbers, and the arithmetic of Floats, taken as pure functions of
their arguments. -/
structure Host where
  /-- The method `a <=> b` of an operand. -/
  cmp : Value → Value → Except Exc Value
  /-- The method `v.succ`. -/
  succ : Value → Except Exc Value
  /-- The methods `a + b`, `a - b`, `a < b`, `a <= b`, `a > b` of an operand, by name; with a
  Float operand, what the arithmetic of C doubles gives. -/
  binop : String → Value → Value → Except Exc Value
  /-- Whether `rb_respond_to(v, id_succ)` holds. -/
  respond_to_succ : Value → Bool
  /-- The result of `rb_obj_classname(v)`. -/
  classname : Value → String
  /-- Whether `rb_obj_is_kind_of(v, rb_cNumeric)` holds for an operand that is not built in. -/
  kind_of_numeric : Value → Bool
  /-- The function `rb_check_to_integer(v, method)` on an operand that is not a number: the
  Integer that `v.method` returns, if it returns one. -/
  check_to_integer : Value → String → Option Int
  /-- The function `rb_check_string_type(v)` on an operand that is not a String. -/
  check_string_type : Value → Option String
  /-- The strings that `rb_str_upto(b, e, excl)` hands to its block, in order. -/
  str_upto : String → Value → Bool → Except Exc (List Value)
  /-- The function `rb_hash(v)`: the machine word (a VALUE) that `v.hash` returns. -/
  hash : Value → Nat
  /-- The function `rb_eql(a, b)`. -/
  eql : Value → Value → Bool
  /-- The function `rb_equal(a, b)` on operands that are not both numbers. -/
  equal : Value → Value → Bool
  /-- The function `rb_obj_as_string(v)`: the characters and the taint flag of the result. -/
  to_s : Value → String × Bool
  /-- The function `rb_inspect(v)`: the characters and the taint flag of the result. -/
  inspect : Value → String × Bool
  /-- The machine word of a VALUE that is a pointer. -/
  address : Value → Int
  /-- The method `exclude_end?` of a range-like object that is not a Range. -/
  exclude_end : Value → Except Exc Value
  /-- The inherited (Enumerable) method reached by `rb_call_super`, by name, on the receiver's
  begin, end and exclusivity and the arguments. -/
  call_super : String → Value → Value → Bool → List Value → Except Exc Value

/-! ## Macros of ruby.h -/

/-- The macro `FIXNUM_P`. -/
def FIXNUM_P : Value → Bool
  | .int i => FIXABLE i
  | _ => false

/-- The macro `NIL_P`. -/
def NIL_P : Value → Bool
  | .Qnil => true
  | _ => false

/-- The macro `RTEST`: every value but `nil` and `false` is true. -/
def RTEST : Value → Bool
  | .Qnil => false
  | .Qfalse => false
  | _ => true

/-- The macros `LONG2NUM`, `INT2NUM`, `INT2FIX`, `LONG2FIX` on a value that fits: the Integer of
that value. -/
def LONG2NUM (i : Int) : Value := .int i

/-- A Range instance: its address, its class, and the entries of its instance-variable table for
`id_beg`, `id_end` and `id_excl` (`none`: the variable is not defined). -/
structure RObject where
  addr : Nat
  klass : Nat
  beg : Option Value
  end_ : Option Value
  excl : Option Value
  deriving DecidableEq, Repr

/-- The function `rb_obj_alloc(rb_cRange)`: an instance with no instance variable. -/
def rb_obj_alloc (addr klass : Nat) : RObject := ⟨addr, klass, none, none, none⟩

/-- The function `rb_ivar_get`: the value of the variable, `nil` when it is not defined. -/
def rb_ivar_get (slot : Option Value) : Value := slot.getD .Qnil

/-- The function `rb_ivar_defined`. -/
def rb_ivar_defined (slot : Option Value) : Bool := slot.isSome

/-- The macro `EXCL(r)` of range.c: `RTEST(rb_ivar_get((r), id_excl))`. -/
def EXCL (r : RObject) : Bool := RTEST (rb_ivar_get r.excl)

/-! ## Built-in methods of numbers reached through `rb_funcall` -/

/-- Three-way comparison of two rationals as the Integer -1, 0 or 1. -/
def cmp3 (x y : ℚ) : Value := if x < y then .int (-1) else if x = y then .int 0 else .int 1

/-- Modelled from the spec: `rb_funcall(a, id_cmp, 1, b)`, the three-way comparison protocol. The
methods `<=>` of Integer and Float are in numeric.c and bignum.c, which are absent: on two
numbers the result is LESS (-1), EQUAL (0) or GREATER (1); any other pair is up to the host. -/
def funcall_cmp (H : Host) (a b : Value) : Eff Value :=
  match a, b with
  | .int x, .int y => send (.cmp a b) (.ok (cmp3 x y))
  | .int x, .float y => send (.cmp a b) (.ok (cmp3 x y))
  | .float x, .int y => send (.cmp a b) (.ok (cmp3 x y))
  | .float x, .float y => send (.cmp a b) (.ok (cmp3 x y))
  | _, _ => send (.cmp a b) (H.cmp a b)

/-- Modelled from the spec: `rb_funcall(v, id_succ, 0, 0)`, the successor protocol. `Integer#succ`
is in numeric.c, which is absent: the successor of an Integer is the next Integer. -/
def funcall_succ (H : Host) (v : Value) : Eff Value :=
  match v with
  | .int x => send (.succ v) (.ok (.int (x + 1)))
  | _ => send (.succ v) (H.succ v)

/-- Modelled from the spec: `rb_respond_to(v, id_succ)`. Integer and String define `succ`, Float
does not (the comment of `range_each`); any other object is up to the host. -/
def rb_respond_to_succ (H : Host) (v : Value) : Bool :=
  match v with
  | .int _ => true
  | .str _ => true
  | .float _ => false
  | _ => H.respond_to_succ v

/-- Modelled from the spec: `rb_cmpint(val, a, b)` of compar.c (absent), which turns the result
of `<=>` into a C int that is negative, zero or positive: LESS, EQUAL or GREATER. It raises on
`nil`; on a result that is not an Integer it asks the result whether it is `> 0`, then `< 0`. -/
def rb_cmpint (H : Host) (val a b : Value) : Eff Int :=
  match val with
  | .Qnil => Eff.raise (.rb_eArgError
      ("comparison of " ++ H.classname a ++ " with " ++ H.classname b ++ " failed"))
  | .int x => pure (if 0 < x then 1 else if x < 0 then -1 else 0)
  | _ => do
    let gt ← send (.binop ">" val (.int 0)) (H.binop ">" val (.int 0))
    if RTEST gt then return 1
    let lt ← send (.binop "<" val (.int 0)) (H.binop "<" val (.int 0))
    if RTEST lt then return (-1)
    return 0

/-- Modelled from the spec: `rb_rescue(b_proc, data1, r_proc, data2)` of eval.c (absent): run the
body; if it fails with an error, run the rescue procedure instead. -/
def rb_rescue {α : Type} (body : Eff α) (r_proc : Eff α) : Eff α :=
  match body.out with
  | .raised _ => ⟨body.log ++ r_proc.log, r_proc.out⟩
  | _ => body

/-! ## range.c -/

/-- The function `range_failed` (range.c:21). -/
def range_failed : Eff Value := Eff.raise (.rb_eArgError "bad value for range")

/-- The function `range_check` (range.c:28). -/
def range_check (H : Host) (args0 args1 : Value) : Eff Value := funcall_cmp H args0 args1

/-- The macro `SET_EXCL(r, v)` of range.c. -/
def SET_EXCL (r : RObject) (v : Bool) : RObject :=
  { r with excl := some (if v then .Qtrue else .Qfalse) }

/-- The function `range_init` (range.c:34): the effect of the validation, and the instance
afterwards (the three instance variables are written only when the validation returns). -/
def range_init (H : Host) (range : RObject) (beg end_ : Value) (exclude_end : Bool) :
    Eff Unit × RObject :=
  let check : Eff Unit :=
    if !FIXNUM_P beg || !FIXNUM_P end_ then do
      let v ← rb_rescue (range_check H beg end_) range_failed
      if NIL_P v then
        let _ ← range_failed
        return ()
      return ()
    else pure ()
  match check.out with
  | .ret _ =>
    let range := SET_EXCL range exclude_end
    let range := { range with beg := some beg }
    let range := { range with end_ := some end_ }
    (check, range)
  | _ => (check, range)

/-- The function `rb_range_new` (range.c:54). -/
def rb_range_new (H : Host) (addr klass : Nat) (beg end_ : Value) (exclude_end : Bool) :
    Eff Unit × RObject :=
  let range := rb_obj_alloc addr klass
  range_init H range beg end_ exclude_end

/-- The function `rb_scan_args(argc, argv, "21", ...)`: two mandatory arguments and one optional
one, `nil` when it is not given. -/
def rb_scan_args_21 (argv : List Value) : Eff (Value × Value × Value) :=
  match argv with
  | [beg, end_] => pure (beg, end_, .Qnil)
  | [beg, end_, flags] => pure (beg, end_, flags)
  | _ => Eff.raise (.rb_eArgError "wrong number of arguments")

/-- The function `range_initialize` (range.c:72), the method `initialize`. -/
def range_initialize (H : Host) (argv : List Value) (range : RObject) : Eff Value × RObject :=
  let scanned := rb_scan_args_21 argv
  match scanned.out with
  | .ret (beg, end_, flags) =>
    if rb_ivar_defined range.beg then
      (Eff.raise (.rb_eNameError "`initialize' called twice"), range)
    else
      let r := range_init H range beg end_ (RTEST flags)
      (r.1 >>= fun _ => pure .Qnil, r.2)
  | .raised e => (⟨scanned.log, .raised e⟩, range)
  | .outOfFuel => (⟨scanned.log, .outOfFuel⟩, range)

/-- The function `range_exclude_end_p` (range.c:94), the method `exclude_end?`. -/
def range_exclude_end_p (range : RObject) : Value := if EXCL range then .Qtrue else .Qfalse

/-- The function `range_first` (range.c:414), the methods `first` and `begin`. -/
def range_first (range : RObject) : Value := rb_ivar_get range.beg

/-- The function `range_last` (range.c:433), the methods `last` and `end`. -/
def range_last (range : RObject) : Value := rb_ivar_get range.end_

/-- An argument that may or may not be a Range instance. -/
inductive AnyObj where
  | range (r : RObject)
  | other (v : Value)
  deriving DecidableEq, Repr

/-- Modelled from the spec: `rb_equal(a, b)` of object.c (absent), the value equality `==`: the
same object, or two numbers of the same value; any other pair is up to the host. -/
def rb_equal (H : Host) (a b : Value) : Bool :=
  if a = b then true else
  match a, b with
  | .int _, .int _ => false
  | .int x, .float y => decide ((x : ℚ) = y)
  | .float x, .int y => decide (x = (y : ℚ))
  | .float _, .float _ => false
  | _, _ => H.equal a b

/-- The function `range_eq` (range.c:115), the method `==`. -/
def range_eq (H : Host) (range : RObject) (obj : AnyObj) : Value :=
  match obj with
  | .other _ => .Qfalse
  | .range o =>
    if range.addr = o.addr then .Qtrue
    else if !(o.klass = range.klass) then .Qfalse
    else if !rb_equal H (rb_ivar_get range.beg) (rb_ivar_get o.beg) then .Qfalse
    else if !rb_equal H (rb_ivar_get range.end_) (rb_ivar_get o.end_) then .Qfalse
    else if EXCL range != EXCL o then .Qfalse
    else .Qtrue

/-- The function `r_lt` (range.c:132). The C function returns an int that holds `Qfalse` or
`Qtrue`. -/
def r_lt (H : Host) (a b : Value) : Eff Value := do
  let r ← funcall_cmp H a b
  if NIL_P r then return .Qfalse
  let c ← rb_cmpint H r a b
  if c < 0 then return .Qtrue
  return .Qfalse

/-- The function `r_le` (range.c:142). The C function returns an int that holds `Qfalse`, `Qtrue`
or `INT2FIX(0)`. -/
def r_le (H : Host) (a b : Value) : Eff Value := do
  let r ← funcall_cmp H a b
  if NIL_P r then return .Qfalse
  let c ← rb_cmpint H r a b
  if c = 0 then return (LONG2NUM 0)
  if c < 0 then return .Qtrue
  return .Qfalse

/-- Truth of a C int that holds a VALUE, as tested by `if (x)` and `while (x)`: the only VALUE
whose machine word is 0 is `Qfalse`. -/
def c_true (v : Value) : Bool := !(v = .Qfalse)

/-- The function `range_eql` (range.c:170), the method `eql?`. -/
def range_eql (H : Host) (range : RObject) (obj : AnyObj) : Value :=
  match obj with
  | .other _ => .Qfalse
  | .range o =>
    if range.addr = o.addr then .Qtrue
    else if !(o.klass = range.klass) then .Qfalse
    else if !H.eql (rb_ivar_get range.beg) (rb_ivar_get o.beg) then .Qfalse
    else if !H.eql (rb_ivar_get range.end_) (rb_ivar_get o.end_) then .Qfalse
    else if EXCL range != EXCL o then .Qfalse
    else .Qtrue

/-- The macro `LONG2FIX` on the machine word `hash` of a long: the word is shifted left by one,
so the Fixnum keeps the low 63 bits, read as a signed number. -/
def LONG2FIX_word (hash : Nat) : Value := .int ((((hash : Int) + 2 ^ 62) % 2 ^ 63) - 2 ^ 62)

/-- The function `range_hash` (range.c:196), the method `hash`, on 64-bit machine words. -/
def range_hash (H : Host) (range : RObject) : Value :=
  let hash : Nat := if EXCL range then 1 else 0
  let v := H.hash (rb_ivar_get range.beg)
  let hash := hash ^^^ ((v <<< 1) % 2 ^ 64)
  let v := H.hash (rb_ivar_get range.end_)
  let hash := hash ^^^ ((v <<< 9) % 2 ^ 64)
  let hash := hash ^^^ ((if EXCL range then 1 else 0) <<< 24)
  LONG2FIX_word hash

/-! ### Iteration -/

/-- What `each` and `step` return: the range itself, or an enumerator when no block is given
(the macro `RETURN_ENUMERATOR`). -/
inductive IterResult where
  | self
  | enumerator
  deriving DecidableEq, Repr

/-- The function `rb_iterate(str_step, args, func, iter)` around `str_step` (range.c:211): every
string that `rb_str_upto(args[0], args[1], EXCL(args[2]))` yields is handed to `func`. -/
def str_step {σ : Type} (H : Host) (range : RObject) (func : Value → σ → Eff σ)
    (b : String) (e : Value) (arg : σ) : Eff σ :=
  match H.str_upto b e (EXCL range) with
  | .error ex => Eff.raise ex
  | .ok vs => vs.foldlM (fun st v => func v st) arg

/-- The loop `while (r_lt(v, e))` of `range_each_func` (range.c:225). -/
def range_each_func_excl {σ : Type} (H : Host) (func : Value → σ → Eff σ) :
    Nat → Value → Value → σ → Eff σ
  | 0, _, _, _ => Eff.stuck
  | fuel + 1, v, e, arg => do
    let t ← r_lt H v e
    if c_true t then
      let arg ← func v arg
      let v ← funcall_succ H v
      range_each_func_excl H func fuel v e arg
    else return arg

/-- The loop `while (RTEST(c = r_le(v, e)))` of `range_each_func` (range.c:231). -/
def range_each_func_incl {σ : Type} (H : Host) (func : Value → σ → Eff σ) :
    Nat → Value → Value → σ → Eff σ
  | 0, _, _, _ => Eff.stuck
  | fuel + 1, v, e, arg => do
    let c ← r_le H v e
    if RTEST c then
      let arg ← func v arg
      if c = LONG2NUM 0 then return arg
      let v ← funcall_succ H v
      range_each_func_incl H func fuel v e arg
    else return arg

/-- The function `range_each_func` (range.c:219). The state `arg` of the callback is threaded
through the calls. -/
def range_each_func {σ : Type} (H : Host) (fuel : Nat) (range : RObject)
    (func : Value → σ → Eff σ) (v e : Value) (arg : σ) : Eff σ :=
  if EXCL range then range_each_func_excl H func fuel v e arg
  else range_each_func_incl H func fuel v e arg

/-- The function `step_i` (range.c:239); `iter` is the array `long iter[2]`. -/
def step_i (i : Value) (iter : Int × Int) : Eff (Int × Int) := do
  let iter0 := wrapLong (iter.1 - 1)
  if iter0 = 0 then
    rb_yield i
    return (iter.2, iter.2)
  return (iter0, iter.2)

/-- The function `each_i` (range.c:344). -/
def each_i (v : Value) (arg : Unit) : Eff Unit := do
  rb_yield v
  return arg

/-- Truncation of a rational toward zero, the C conversion `(long)d`. -/
def truncQ (q : ℚ) : Int := if 0 ≤ q then Int.floor q else Int.ceil q

/-- Modelled from the spec: the macro `NUM2LONG` of ruby.h and `rb_num2long` of numeric.c
(absent), the conversion of a value to a C long: an Integer or a Float converts to its
(truncated) value when that fits a long and fails with RangeError otherwise, `nil` fails with
TypeError, any other object is converted by its `to_int`. -/
def NUM2LONG (H : Host) (v : Value) : Eff Int :=
  match v with
  | .int i =>
    if LONG_MIN ≤ i ∧ i ≤ LONG_MAX then pure i
    else Eff.raise (.rb_eRangeError "bignum too big to convert into `long'")
  | .float q =>
    if LONG_MIN ≤ truncQ q ∧ truncQ q ≤ LONG_MAX then pure (truncQ q)
    else Eff.raise (.rb_eRangeError "float out of range of integer")
  | .Qnil => Eff.raise (.rb_eTypeError "no implicit conversion from nil to integer")
  | _ =>
    match H.check_to_integer v "to_int" with
    | some i =>
      if LONG_MIN ≤ i ∧ i ≤ LONG_MAX then pure i
      else Eff.raise (.rb_eRangeError "bignum too big to convert into `long'")
    | none => Eff.raise (.rb_eTypeError ("can't convert " ++ H.classname v ++ " into Integer"))

/-- Modelled from the spec: `rb_check_string_type(v)` of string.c (absent): the string itself,
or the result of the duck-typed `to_str`, or nothing. -/
def rb_check_string_type (H : Host) (v : Value) : Option String :=
  match v with
  | .str s => some s
  | .int _ => none
  | .float _ => none
  | .Qnil => none
  | .Qtrue => none
  | .Qfalse => none
  | _ => H.check_string_type v

/-- Modelled from the spec: `rb_obj_is_kind_of(v, rb_cNumeric)`: Integer and Float are numeric,
`nil`, `true`, `false` and strings are not, any other object is up to the host. -/
def kind_of_Numeric (H : Host) (v : Value) : Bool :=
  match v with
  | .int _ => true
  | .float _ => true
  | .obj _ _ => H.kind_of_numeric v
  | _ => false

/-- The rational value of a built-in number. -/
def numVal : Value → Option ℚ
  | .int i => some i
  | .float q => some q
  | _ => none

/-- Modelled from the spec: `rb_funcall(a, op, 1, b)` for the operators `+`, `-`, `<`, `<=` and
`>`, whose methods on Integer and Float are in numeric.c (absent). On two Integers they are exact
arithmetic and the natural order. With a Float operand they compute in C doubles, which round;
doubles are not computed here, so the answer for such a pair, as for any other pair, is the
one the host gives. -/
def funcall_binop (H : Host) (op : String) (a b : Value) : Eff Value :=
  let ofBool := fun (t : Bool) => if t then Value.Qtrue else Value.Qfalse
  match a, b with
  | .int i, .int j =>
    if op = "<" then send (.binop op a b) (.ok (ofBool (decide (i < j))))
    else if op = "<=" then send (.binop op a b) (.ok (ofBool (decide (i ≤ j))))
    else if op = ">" then send (.binop op a b) (.ok (ofBool (decide (j < i))))
    else if op = "+" then send (.binop op a b) (.ok (.int (i + j)))
    else if op = "-" then send (.binop op a b) (.ok (.int (i - j)))
    else send (.binop op a b) (H.binop op a b)
  | _, _ => send (.binop op a b) (H.binop op a b)

/-- The loop `for (i=FIX2LONG(b); i<end; i+=unit)` of `range_step` (range.c:304). -/
def range_step_fixnum_loop (unit end_ : Int) : Nat → Int → Eff Unit
  | 0, _ => Eff.stuck
  | fuel + 1, i =>
    if i < end_ then do
      rb_yield (LONG2NUM i)
      range_step_fixnum_loop unit end_ fuel (wrapLong (i + unit))
    else pure ()

/-- The loop `while (RTEST(rb_funcall(b, c, 1, e)))` of `range_step` (range.c:324). -/
def range_step_numeric_loop (H : Host) (c : String) (e step : Value) : Nat → Value → Eff Unit
  | 0, _ => Eff.stuck
  | fuel + 1, b => do
    let t ← funcall_binop H c b e
    if RTEST t then
      rb_yield b
      let b ← funcall_binop H "+" b step
      range_step_numeric_loop H c e step fuel b
    else return ()

/-- The function `rb_scan_args(argc, argv, "01", &step)`: at most one argument; the number of
arguments given and the argument. -/
def rb_scan_args_01 (argv : List Value) : Eff (Nat × Value) :=
  match argv with
  | [] => pure (0, .Qnil)
  | [step] => pure (1, step)
  | _ => Eff.raise (.rb_eArgError "wrong number of arguments")

/-- The function `range_step` (range.c:280), the method `step`. -/
def range_step (H : Host) (fuel : Nat) (block_given : Bool) (argv : List Value)
    (range : RObject) : Eff IterResult :=
  if !block_given then pure .enumerator else do
  let b := rb_ivar_get range.beg
  let e := rb_ivar_get range.end_
  let scanned ← rb_scan_args_01 argv
  let step := if scanned.1 = 0 then LONG2NUM 1 else scanned.2
  let unit ← NUM2LONG H step
  if unit < 0 then
    let _ ← (Eff.raise (.rb_eArgError "step can't be negative") : Eff Unit)
  if unit = 0 then
    let _ ← (Eff.raise (.rb_eArgError "step can't be 0") : Eff Unit)
  if FIXNUM_P b && FIXNUM_P e then
    match b, e with
    | .int bi, .int ei =>
      let end_ := if !EXCL range then wrapLong (ei + 1) else ei
      range_step_fixnum_loop unit end_ fuel bi
    | _, _ => pure ()
  else
    match rb_check_string_type H b with
    | some tmp =>
      let _ ← str_step H range step_i tmp e (1, unit)
    | none =>
      if kind_of_Numeric H b then
        let c := if EXCL range then "<" else "<="
        if rb_equal H step (LONG2NUM 0) then
          let _ ← (Eff.raise (.rb_eArgError "step can't be 0") : Eff Unit)
        range_step_numeric_loop H c e step fuel b
      else
        if !rb_respond_to_succ H b then
          let _ ← (Eff.raise (.rb_eTypeError ("can't iterate from " ++ H.classname b)) : Eff Unit)
        let _ ← range_each_func H fuel range step_i b e (1, unit)
  return .self

/-- The loop `for (i=FIX2LONG(beg); i<lim; i++)` of `range_each` (range.c:388). -/
def range_each_fixnum_loop (lim : Int) : Nat → Int → Eff Unit
  | 0, _ => Eff.stuck
  | fuel + 1, i =>
    if i < lim then do
      rb_yield (LONG2NUM i)
      range_each_fixnum_loop lim fuel (wrapLong (i + 1))
    else pure ()

/-- The function `range_each` (range.c:369), the method `each`. -/
def range_each (H : Host) (fuel : Nat) (block_given : Bool) (range : RObject) :
    Eff IterResult :=
  if !block_given then pure .enumerator else do
  let beg := rb_ivar_get range.beg
  let end_ := rb_ivar_get range.end_
  if !rb_respond_to_succ H beg then
    let _ ← (Eff.raise (.rb_eTypeError ("can't iterate from " ++ H.classname beg)) : Eff Unit)
  if FIXNUM_P beg && FIXNUM_P end_ then
    match beg, end_ with
    | .int bi, .int ei =>
      let lim := if !EXCL range then wrapLong (ei + 1) else ei
      range_each_fixnum_loop lim fuel bi
    | _, _ => pure ()
  else
    match beg with
    | .str s =>
      let _ ← str_step H range step_i s end_ (1, 1)
    | _ =>
      let _ ← range_each_func H fuel range each_i beg end_ ()
  return .self

/-! ### Minimum and maximum -/

/-- The function `range_min` (range.c:451), the method `min`. -/
def range_min (H : Host) (block_given : Bool) (range : RObject) : Eff Value :=
  if block_given then
    match H.call_super "min" (rb_ivar_get range.beg) (rb_ivar_get range.end_) (EXCL range) [] with
    | .ok v => pure v
    | .error ex => Eff.raise ex
  else do
    let b := rb_ivar_get range.beg
    let e := rb_ivar_get range.end_
    let r ← funcall_cmp H b e
    let c ← rb_cmpint H r b e
    if 0 < c then return .Qnil
    return b

/-- Result of a C `int` operation whose exact value is `x` (LP64: 32 bits). -/
def wrapInt (x : Int) : Int := (x + 2 ^ 31) % 2 ^ 32 - 2 ^ 31

/-- Modelled from the spec: the macro `FIX2INT` of ruby.h (absent): where a long is wider than an
int it is `rb_fix2int`, which fails with RangeError when the Fixnum does not fit a C int. -/
def FIX2INT (i : Int) : Eff Int :=
  if INT_MIN ≤ i ∧ i ≤ INT_MAX then pure i
  else Eff.raise (.rb_eRangeError "integer too big to convert to `int'")

/-- Modelled from the spec: `rb_obj_is_kind_of(v, rb_cInteger)`. -/
def kind_of_Integer : Value → Bool
  | .int _ => true
  | _ => false

/-- The function `range_max` (range.c:479), the method `max`. -/
def range_max (H : Host) (block_given : Bool) (range : RObject) : Eff Value :=
  let e := rb_ivar_get range.end_
  let ip := FIXNUM_P e || kind_of_Integer e
  if block_given || (EXCL range && !ip) then
    match H.call_super "max" (rb_ivar_get range.beg) e (EXCL range) [] with
    | .ok v => pure v
    | .error ex => Eff.raise ex
  else do
    let b := rb_ivar_get range.beg
    let r ← funcall_cmp H b e
    let c ← rb_cmpint H r b e
    if 0 < c then return .Qnil
    if EXCL range then
      match e with
      | .int ei =>
        if FIXABLE ei then
          let n ← FIX2INT ei
          return LONG2NUM (wrapInt (n - 1))
        else
          funcall_binop H "-" e (LONG2NUM 1)
      | _ => funcall_binop H "-" e (LONG2NUM 1)
    else return e

/-! ### Slice resolution -/

/-- Modelled from the spec: `rb_check_to_integer(v, method)` of object.c (absent): a value
convertible to an Integer by the duck-typed `method` gives that Integer, any other gives `nil`.
A Fixnum is returned as it is; an Integer and a Float convert by `to_int`. -/
def rb_check_to_integer (H : Host) (v : Value) (method : String) : Value :=
  match v with
  | .int i =>
    if FIXABLE i || method = "to_int" then .int i
    else match H.check_to_integer v method with
      | some j => .int j
      | none => .Qnil
  | .float q =>
    if method = "to_int" then .int (truncQ q)
    else match H.check_to_integer v method with
      | some j => .int j
      | none => .Qnil
  | .Qnil => .Qnil
  | .Qtrue => .Qnil
  | .Qfalse => .Qnil
  | _ => match H.check_to_integer v method with
    | some j => .int j
    | none => .Qnil

/-- The machine word of a VALUE, read as a long (ruby.h: `Qfalse` is 0, `Qtrue` 2, `Qnil` 4, a
Fixnum `i` is `2 * i + 1`, anything else is a pointer). -/
def VALUE_word (H : Host) (v : Value) : Int :=
  match v with
  | .Qfalse => 0
  | .Qtrue => 2
  | .Qnil => 4
  | .int i => if FIXABLE i then 2 * i + 1 else H.address v
  | _ => H.address v

/-- What `rb_range_beg_len` hands back: the VALUE it returns and what it stored through `begp`
and `lenp` (`none`: nothing was stored). -/
structure BegLen where
  ret : Value
  begp : Option Int
  lenp : Option Int
  deriving DecidableEq, Repr

/-- The label `out_of_range` of `rb_range_beg_len` (range.c:541). -/
def out_of_range (H : Host) (b e : Value) (excl : Bool) (err : Int) : Eff BegLen :=
  if err ≠ 0 then
    Eff.raise (.rb_eRangeError (toString (VALUE_word H b) ++ ".." ++ (if excl then "." else "")
      ++ toString (VALUE_word H e) ++ " out of range"))
  else pure ⟨.Qnil, none, none⟩

/-- The statements of `rb_range_beg_len` on the longs `beg`, `end` and `len` (range.c:524-535);
`none` is the jump to `out_of_range`, otherwise the final `beg` and `len`. -/
def beg_len_longs (beg end_ : Int) (excl : Bool) (len : Int) (err : Int) : Option (Int × Int) :=
  let beg1 := if beg < 0 then wrapLong (beg + len) else beg
  if beg < 0 ∧ beg1 < 0 then none
  else if (err = 0 ∨ err = 2) ∧ len < beg1 then none
  else
    let end1 := if (err = 0 ∨ err = 2) ∧ len < end_ then len else end_
    let end2 := if end1 < 0 then wrapLong (end1 + len) else end1
    let end3 := if !excl then wrapLong (end2 + 1) else end2
    let len1 := wrapLong (end3 - beg1)
    let len2 := if len1 < 0 then 0 else len1
    some (beg1, len2)

/-- The part of `rb_range_beg_len` after the bounds are read (range.c:521-547). -/
def beg_len_core (H : Host) (b e : Value) (excl : Bool) (len : Int) (err : Int) :
    Eff BegLen := do
  let beg ← NUM2LONG H b
  let end_ ← NUM2LONG H e
  match beg_len_longs beg end_ excl len err with
  | none => out_of_range H b e excl err
  | some (beg, len) => return ⟨.Qtrue, some beg, some len⟩

/-- The function `rb_range_beg_len` (range.c:503). -/
def rb_range_beg_len (H : Host) (range : AnyObj) (len : Int) (err : Int) : Eff BegLen :=
  match range with
  | .range r => beg_len_core H (rb_ivar_get r.beg) (rb_ivar_get r.end_) (EXCL r) len err
  | .other v =>
    let b := rb_check_to_integer H v "begin"
    if NIL_P b then pure ⟨.Qfalse, none, none⟩ else
    let e := rb_check_to_integer H v "end"
    if NIL_P e then pure ⟨.Qfalse, none, none⟩ else
    match H.exclude_end v with
    | .error ex => Eff.raise ex
    | .ok x => beg_len_core H b e (RTEST x) len err

/-! ### Conversion to a string -/

/-- Modelled from the spec: `rb_obj_as_string(v)`, the display form of a value and its taint
flag: an Integer prints in decimal, a String is itself, any other object is up to the host. -/
def rb_obj_as_string (H : Host) (v : Value) : String × Bool :=
  match v with
  | .int i => (toString i, false)
  | .str s => (s, (H.to_s v).2)
  | _ => H.to_s v

/-- Modelled from the spec: `rb_inspect(v)`, the debug representation of a value and its taint
flag: an Integer prints in decimal, any other object is up to the host. -/
def rb_inspect (H : Host) (v : Value) : String × Bool :=
  match v with
  | .int i => (toString i, false)
  | _ => H.inspect v

/-- The calls `rb_str_dup`, `rb_str_cat(str, "...", n)`, `rb_str_append(str, str2)` and
`OBJ_INFECT(str, str2)` shared by `range_to_s` and `range_inspect`. -/
def range_join (str str2 : String × Bool) (excl : Bool) : String × Bool :=
  let str := (str.1, str.2)
  let str := (str.1 ++ "...".take (if excl then 3 else 2), str.2)
  let str := (str.1 ++ str2.1, str.2 || str2.2)
  (str.1, str.2 || str2.2)

/-- The function `range_to_s` (range.c:556), the method `to_s`. -/
def range_to_s (H : Host) (range : RObject) : String × Bool :=
  let str := rb_obj_as_string H (rb_ivar_get range.beg)
  let str2 := rb_obj_as_string H (rb_ivar_get range.end_)
  range_join str str2 (EXCL range)

/-- The function `range_inspect` (range.c:581), the method `inspect`. -/
def range_inspect (H : Host) (range : RObject) : String × Bool :=
  let str := rb_inspect H (rb_ivar_get range.beg)
  let str2 := rb_inspect H (rb_ivar_get range.end_)
  range_join str str2 (EXCL range)

/-! ### Membership -/

/-- The statement under the label `numeric_range` of `range_include` (range.c:630-637): whether
it reaches `return Qtrue`. -/
def numeric_range_test (H : Host) (range : RObject) (beg end_ val : Value) : Eff Bool := do
  let t ← r_le H beg val
  if c_true t then
    if EXCL range then
      let u ← r_lt H val end_
      pure (c_true u)
    else
      let u ← r_le H val end_
      pure (c_true u)
  else pure false

/-- The call `rb_call_super(1, &val)` of `range_include`. -/
def include_super (H : Host) (range : RObject) (val : Value) : Eff Value :=
  match H.call_super "include?" (rb_ivar_get range.beg) (rb_ivar_get range.end_) (EXCL range)
      [val] with
  | .ok v => pure v
  | .error ex => Eff.raise ex

/-- The function `range_include` from the label `numeric_range` on (range.c:629-642); each
arrival at the label takes one unit of fuel. -/
def range_include_numeric_range (H : Host) (range : RObject) (beg end_ val : Value) :
    Nat → Eff Value
  | 0 => Eff.stuck
  | fuel + 1 => do
    let hit ← numeric_range_test H range beg end_ val
    if hit then pure .Qtrue
    else if !NIL_P (rb_check_to_integer H beg "to_int")
        || !NIL_P (rb_check_to_integer H end_ "to_int") then
      range_include_numeric_range H range beg end_ val fuel
    else include_super H range val

/-- The function `range_include` (range.c:618), the methods `===`, `member?` and `include?`. -/
def range_include (H : Host) (fuel : Nat) (range : RObject) (val : Value) : Eff Value :=
  let beg := rb_ivar_get range.beg
  let end_ := rb_ivar_get range.end_
  let nv := FIXNUM_P beg || FIXNUM_P end_ || kind_of_Numeric H beg || kind_of_Numeric H end_
  if nv then range_include_numeric_range H range beg end_ val fuel
  else if !NIL_P (rb_check_to_integer H beg "to_int")
      || !NIL_P (rb_check_to_integer H end_ "to_int") then
    range_include_numeric_range H range beg end_ val fuel
  else include_super H range val

/-! ### The method table -/

/-- A public operation of a Range with its arguments: a method that `Init_Range` (range.c:698)
registers, or the C entry point `rb_range_beg_len`. -/
inductive Call where
  | initialize_ (argv : List Value)
  | eq (obj : AnyObj)
  | eqq (val : Value)
  | eql (obj : AnyObj)
  | hash
  | each (block_given : Bool)
  | step (block_given : Bool) (argv : List Value)
  | first
  | last
  | min (block_given : Bool)
  | max (block_given : Bool)
  | to_s
  | inspect
  | exclude_end_p
  | member_p (val : Value)
  | include_p (val : Value)
  | beg_len (len : Int) (err : Int)
  deriving DecidableEq, Repr

/-- What a public operation hands back. -/
inductive Ret where
  | value (v : Value)
  | iter (r : IterResult)
  | string (s : String × Bool)
  | slice (r : BegLen)
  deriving DecidableEq, Repr

/-- The table of `Init_Range` (range.c:703-722): the C function behind each operation, run on
the receiver `range`; the result is the effect of the call and the receiver afterwards. Only
`range_initialize` writes instance variables, so every other entry hands the receiver back.
`Call.initialize_` is the method `initialize`. -/
def Init_Range (H : Host) (fuel : Nat) (c : Call) (range : RObject) : Eff Ret × RObject :=
  match c with
  | .initialize_ argv =>
    let r := range_initialize H argv range
    (r.1 >>= fun v => pure (.value v), r.2)
  | .eq obj => (pure (.value (range_eq H range obj)), range)
  | .eqq val => (range_include H fuel range val >>= fun v => pure (.value v), range)
  | .eql obj => (pure (.value (range_eql H range obj)), range)
  | .hash => (pure (.value (range_hash H range)), range)
  | .each block_given => (range_each H fuel block_given range >>= fun r => pure (.iter r), range)
  | .step block_given argv =>
    (range_step H fuel block_given argv range >>= fun r => pure (.iter r), range)
  | .first => (pure (.value (range_first range)), range)
  | .last => (pure (.value (range_last range)), range)
  | .min block_given => (range_min H block_given range >>= fun v => pure (.value v), range)
  | .max block_given => (range_max H block_given range >>= fun v => pure (.value v), range)
  | .to_s => (pure (.string (range_to_s H range)), range)
  | .inspect => (pure (.string (range_inspect H range)), range)
  | .exclude_end_p => (pure (.value (range_exclude_end_p range)), range)
  | .member_p val => (range_include H fuel range val >>= fun v => pure (.value v), range)
  | .include_p val => (range_include H fuel range val >>= fun v => pure (.value v), range)
  | .beg_len len err =>
    (rb_range_beg_len H (.range range) len err >>= fun r => pure (.slice r), range)

/-! ## Specification-side definitions and sample data -/

/-- The arithmetic progression `b, b + n, b + 2 * n, ...` of `cnt` Integers, the values a step
of size `n` from `b` is said to visit. -/
def stepValues (b n : Int) (cnt : Nat) : List Value :=
  (List.range cnt).map (fun (k : Nat) => Value.int (b + (k : Int) * n))

/-- A host with no user-defined classes: every operand that is not a built-in number is
incomparable with everything, has no successor and converts to nothing. -/
def plainHost : Host where
  cmp := fun _ _ => .ok .Qnil
  succ := fun _ => .error (.user 0)
  binop := fun _ _ _ => .error (.user 1)
  respond_to_succ := fun _ => false
  classname := fun _ => "Object"
  kind_of_numeric := fun _ => false
  check_to_integer := fun _ _ => none
  check_string_type := fun _ => none
  str_upto := fun _ _ _ => .ok []
  hash := fun v => match v with
    | .int i => (2 * i + 1).toNat
    | _ => 0
  eql := fun a b => decide (a = b)
  equal := fun a b => decide (a = b)
  to_s := fun _ => ("", false)
  inspect := fun _ => ("", false)
  address := fun _ => 0
  exclude_end := fun _ => .ok .Qfalse
  call_super := fun _ _ _ _ _ => .ok .Qnil

/-- The Range `b..e` (`b...e` when `excl`) of two Integers, at address 0, of class 0. -/
def intRange (b e : Int) (excl : Bool) : RObject :=
  ⟨0, 0, some (.int b), some (.int e), some (if excl then .Qtrue else .Qfalse)⟩

/-- Whether the Integer `v` lies in the range of Integers from `b` to `e`, as the specification
says: `b <= v`, and `v <= e` when the range is inclusive, `v < e` when it is exclusive. -/
def inBounds (b e : Int) (excl : Bool) (v : Int) : Prop :=
  b ≤ v ∧ (if excl then v < e else v ≤ e)

instance (b e : Int) (excl : Bool) (v : Int) : Decidable (inBounds b e excl v) := by
  unfold inBounds; infer_instance

/-- The end point `e2` of a slice, as the specification states it: `e`, clamped to `len` in the
modes 0 and 2, offset by `len` when negative, and one more when the range is inclusive. -/
def specEnd (e len : Int) (excl : Bool) (err : Int) : Int :=
  let e1 := if err = 0 ∨ err = 2 then min e len else e
  (if e1 < 0 then e1 + len else e1) + (if excl then 0 else 1)

/-- The slice `(start, count)` that the specification states for the bounds `b` and `e` against a
container of length `len`: `start` is `b`, offset by `len` when negative; `count` is the
distance from `start` to the end point, floored at zero. All arithmetic is exact. -/
def specSlice (b e len : Int) (excl : Bool) (err : Int) : Int × Int :=
  let start := if b < 0 then b + len else b
  (start, max 0 (specEnd e len excl err - start))

/-- The Range `1..5` of class 0 at address 1: another object with the contents of
`intRange 1 5 false`. -/
def intRange2 : RObject := ⟨1, 0, some (.int 1), some (.int 5), some .Qfalse⟩

/-- The value of a decimal digit character. -/
def digitVal (c : Char) : Nat := c.toNat - 48

/-- The number that a list of decimal digits denotes, most significant digit first. -/
def decimalVal (ds : List Char) : Nat := ds.foldl (fun a c => 10 * a + digitVal c) 0

/-- The outcome of comparing two values, as the specification names it. -/
inductive ComparisonResult where
  | LESS
  | EQUAL
  | GREATER
  | INCOMPARABLE
  deriving DecidableEq, Repr

/-- The outcome of `a <=> b` in the terms of the specification: `nil` is INCOMPARABLE, an
Integer is LESS, EQUAL or GREATER by its sign; `none` when the comparison raises or answers
with something else. -/
def compareResult (H : Host) (a b : Value) : Option ComparisonResult :=
  match (funcall_cmp H a b).out with
  | .ret .Qnil => some .INCOMPARABLE
  | .ret (.int x) => some (if x < 0 then .LESS else if x = 0 then .EQUAL else .GREATER)
  | _ => none

/-- A host with the class `Xs` of the documentation of range.c (range.c:665-683): the object of
class 7 at address `n` is `Xs.new(n)`, compared by its length, with `Xs.new(n + 1)` as its
successor. -/
def xsHost : Host :=
  { plainHost with
    cmp := fun a b => match a, b with
      | .obj 7 m, .obj 7 n => .ok (if m < n then .int (-1) else if m = n then .int 0 else .int 1)
      | _, _ => .ok .Qnil
    succ := fun v => match v with
      | .obj 7 m => .ok (.obj 7 (m + 1))
      | _ => .error (.user 0)
    respond_to_succ := fun v => match v with
      | .obj 7 _ => true
      | _ => false
    classname := fun v => match v with
      | .obj 7 _ => "Xs"
      | _ => "Object" }

/-- The Range `Xs.new(m)..Xs.new(n)` (`...` when `excl`). -/
def xsRange (m n : Nat) (excl : Bool) : RObject :=
  ⟨0, 0, some (.obj 7 m), some (.obj 7 n), some (if excl then .Qtrue else .Qfalse)⟩

/-- The elements of a list at the positions 0, n, 2n, ... -/
def everyNth {α : Type} (n : Nat) (l : List α) : List α :=
  (l.enum.filter (fun p => p.1 % n = 0)).map Prod.snd

/-- The elements that a down-counter lets through, as the specification describes it: the counter
starts at `c`, is decremented on each element, and when it reaches zero the element is visited
and the counter is reset to `n`. -/
def downCounter {α : Type} (n : Nat) : Nat → List α → List α
  | _, [] => []
  | c, x :: xs => if c - 1 = 0 then x :: downCounter n n xs else downCounter n (c - 1) xs

/-- How a computation ended, without the value it returned. -/
def Outcome.forget {α : Type} : Outcome α → Outcome Unit
  | .ret _ => .ret ()
  | .raised e => .raised e
  | .outOfFuel => .outOfFuel

/-- The events of `m` rounds of the generic loop of `range_each_func` under `each` that visit and
advance, from the cursor `orbit i` on: for each cursor its comparison with the end `e`, its
visit, and the call of `succ` on it. -/
def orbitLog (orbit : Nat → Value) (e : Value) (i m : Nat) : List Event :=
  (List.range m).flatMap (fun j =>
    [.cmp (orbit (i + j)) e, .yield (orbit (i + j)), .succ (orbit (i + j))])

/-- The Range `b..e` (`b...e` when `excl`) of two Floats, at address 0, of class 0. -/
def floatRange (b e : ℚ) (excl : Bool) : RObject :=
  ⟨0, 0, some (.float b), some (.float e), some (if excl then .Qtrue else .Qfalse)⟩

/-! ## Helper lemmas -/

theorem wrapLong_eq {x : Int} (h1 : LONG_MIN ≤ x) (h2 : x ≤ LONG_MAX) : wrapLong x = x := by
  unfold wrapLong
  unfold LONG_MIN at h1
  unfold LONG_MAX at h2
  omega

@[simp] theorem Eff.bind_eq {α β : Type} (m : Eff α) (f : α → Eff β) :
    (m >>= f) = Eff.bind m f := rfl

@[simp] theorem Eff.pure_eq {α : Type} (a : α) : (Pure.pure a : Eff α) = Eff.pure a := rfl

@[simp] theorem Eff.pure_bind {α β : Type} (a : α) (f : α → Eff β) :
    Eff.bind (Eff.pure a) f = f a := by
  simp [Eff.bind, Eff.pure]

@[simp] theorem Eff.raise_bind {α β : Type} (e : Exc) (f : α → Eff β) :
    Eff.bind (Eff.raise e : Eff α) f = Eff.raise e := by
  simp [Eff.bind, Eff.raise]

theorem Eff.bind_out_ret {α β : Type} (m : Eff α) (f : α → Eff β) (a : α)
    (h : m.out = .ret a) : (Eff.bind m f).out = (f a).out := by
  simp [Eff.bind, h]

theorem FIXABLE_iff (i : Int) : FIXABLE i = true ↔ FIXNUM_MIN ≤ i ∧ i ≤ FIXNUM_MAX := by
  simp [FIXABLE]

theorem stepValues_succ (b n : Int) (cnt : Nat) :
    stepValues b n (cnt + 1) = Value.int b :: stepValues (b + n) n cnt := by
  simp [stepValues, List.range_succ_eq_map, List.map_map, Function.comp_def]
  intro a _
  ring

/-- The integer loop of `range_each` from `i` up to a limit that is a long: it yields
`i, i + 1, ..., lim - 1` and ends, given more fuel than there are values. -/
theorem each_loop_spec (lim : Int) (hlim : lim ≤ LONG_MAX) :
    ∀ (n : Nat) (i : Int) (fuel : Nat), LONG_MIN ≤ i → (lim - i).toNat = n → n < fuel →
      range_each_fixnum_loop lim fuel i
        = ⟨(stepValues i 1 n).map Event.yield, .ret ()⟩ := by
  intro n
  induction n with
  | zero =>
    intro i fuel hi hn hf
    obtain ⟨f, rfl⟩ : ∃ f, fuel = f + 1 := ⟨fuel - 1, by omega⟩
    have : ¬ i < lim := by omega
    simp [range_each_fixnum_loop, this, Eff.pure, stepValues]
  | succ n ih =>
    intro i fuel hi hn hf
    obtain ⟨f, rfl⟩ : ∃ f, fuel = f + 1 := ⟨fuel - 1, by omega⟩
    have hlt : i < lim := by omega
    have hw : wrapLong (i + 1) = i + 1 := wrapLong_eq (by omega) (by omega)
    have := ih (i + 1) f (by omega) (by omega) (by omega)
    simp [range_each_fixnum_loop, hlt, hw, this, Eff.bind, rb_yield, LONG2NUM, stepValues_succ]

/-- The integer loop of `range_step` from `i` with a positive unit whose additions cannot
overflow: it yields `i, i + unit, ...` while the value is below `end_`, and ends. -/
theorem step_loop_spec (unit end_ : Int) (hunit : 0 < unit) (hov : end_ - 1 + unit ≤ LONG_MAX) :
    ∀ (m : Nat) (i : Int), LONG_MIN ≤ i → (end_ - i).toNat ≤ m →
      ∃ cnt : Nat, cnt ≤ m ∧ (∀ k : Nat, k < cnt ↔ i + k * unit < end_) ∧
        ∀ fuel, cnt < fuel →
          range_step_fixnum_loop unit end_ fuel i
            = ⟨(stepValues i unit cnt).map Event.yield, .ret ()⟩ := by
  intro m
  induction m with
  | zero =>
    intro i hi hm
    refine ⟨0, le_refl _, ?_, ?_⟩
    · intro k
      have : 0 ≤ (k : Int) * unit := by positivity
      constructor
      · intro h; omega
      · intro h; omega
    · intro fuel hf
      obtain ⟨f, rfl⟩ : ∃ f, fuel = f + 1 := ⟨fuel - 1, by omega⟩
      have : ¬ i < end_ := by omega
      simp [range_step_fixnum_loop, this, Eff.pure, stepValues]
  | succ m ih =>
    intro i hi hm
    by_cases hlt : i < end_
    · have hw : wrapLong (i + unit) = i + unit := wrapLong_eq (by omega) (by omega)
      obtain ⟨cnt, hcm, hiff, hrun⟩ := ih (i + unit) (by omega) (by omega)
      refine ⟨cnt + 1, by omega, ?_, ?_⟩
      · intro k
        cases k with
        | zero => simp [hlt]
        | succ j =>
          have := hiff j
          have e : i + ((j + 1 : Nat) : Int) * unit = i + unit + (j : Int) * unit := by
            push_cast; ring
          rw [e]
          omega
      · intro fuel hf
        obtain ⟨f, rfl⟩ : ∃ f, fuel = f + 1 := ⟨fuel - 1, by omega⟩
        have := hrun f (by omega)
        simp [range_step_fixnum_loop, hlt, hw, this, Eff.bind, rb_yield, LONG2NUM,
          stepValues_succ]
    · refine ⟨0, by omega, ?_, ?_⟩
      · intro k
        have : 0 ≤ (k : Int) * unit := by positivity
        constructor
        · intro h; omega
        · intro h; omega
      · intro fuel hf
        obtain ⟨f, rfl⟩ : ∃ f, fuel = f + 1 := ⟨fuel - 1, by omega⟩
        simp [range_step_fixnum_loop, hlt, Eff.pure, stepValues]

theorem r_le_int (H : Host) (x y : Int) :
    r_le H (.int x) (.int y)
      = ⟨[.cmp (.int x) (.int y)],
          .ret (if x = y then .int 0 else if x < y then .Qtrue else .Qfalse)⟩ := by
  rcases lt_trichotomy x y with h | h | h
  · have h1 : ¬ x = y := by omega
    simp [r_le, funcall_cmp, cmp3, send, Eff.bind, Eff.pure, NIL_P, rb_cmpint, h, h1, LONG2NUM]
  · subst h
    simp [r_le, funcall_cmp, cmp3, send, Eff.bind, Eff.pure, NIL_P, rb_cmpint, LONG2NUM]
  · have h1 : ¬ x = y := by omega
    have h2 : ¬ x < y := by omega
    simp [r_le, funcall_cmp, cmp3, send, Eff.bind, Eff.pure, NIL_P, rb_cmpint, h1, h2, LONG2NUM]

theorem r_lt_int (H : Host) (x y : Int) :
    r_lt H (.int x) (.int y)
      = ⟨[.cmp (.int x) (.int y)], .ret (if x < y then .Qtrue else .Qfalse)⟩ := by
  rcases lt_trichotomy x y with h | h | h
  · simp [r_lt, funcall_cmp, cmp3, send, Eff.bind, Eff.pure, NIL_P, rb_cmpint, h]
  · subst h
    simp [r_lt, funcall_cmp, cmp3, send, Eff.bind, Eff.pure, NIL_P, rb_cmpint]
  · have h1 : ¬ x = y := by omega
    have h2 : ¬ x < y := by omega
    simp [r_lt, funcall_cmp, cmp3, send, Eff.bind, Eff.pure, NIL_P, rb_cmpint, h1, h2]

theorem c_true_le (x y : Int) :
    c_true (if x = y then .int 0 else if x < y then .Qtrue else .Qfalse) = decide (x ≤ y) := by
  by_cases h1 : x = y
  · simp [c_true, h1]
  · by_cases h2 : x < y
    · simp [c_true, h1, h2, h2.le]
    · have : ¬ x ≤ y := by omega
      simp [c_true, h1, h2, this]

theorem c_true_lt (x y : Int) :
    c_true (if x < y then .Qtrue else .Qfalse) = decide (x < y) := by
  by_cases h2 : x < y <;> simp [c_true, h2]

theorem numeric_range_test_int (H : Host) (range : RObject) (b e v : Int) :
    (numeric_range_test H range (.int b) (.int e) (.int v)).out
      = .ret (decide (inBounds b e (EXCL range) v)) := by
  simp only [numeric_range_test, r_le_int, r_lt_int, inBounds, Eff.bind_eq, Eff.bind, c_true_le,
    c_true_lt, Eff.pure_eq, Eff.pure]
  by_cases hx : EXCL range <;> by_cases h : b ≤ v <;> simp [hx, h]

theorem include_loop_inside (H : Host) (range : RObject) (b e v : Int)
    (hin : inBounds b e (EXCL range) v) (fuel : Nat) :
    (range_include_numeric_range H range (.int b) (.int e) (.int v) (fuel + 1)).out
      = .ret .Qtrue := by
  have ht := numeric_range_test_int H range b e v
  simp only [range_include_numeric_range, Eff.bind_eq]
  rw [Eff.bind_out_ret _ _ _ ht]
  simp [hin, Eff.pure]

theorem include_loop_outside (H : Host) (range : RObject) (b e v : Int)
    (hout : ¬ inBounds b e (EXCL range) v) :
    ∀ fuel : Nat,
      (range_include_numeric_range H range (.int b) (.int e) (.int v) fuel).out
        = .outOfFuel := by
  intro fuel
  induction fuel with
  | zero => rfl
  | succ n ih =>
    have ht := numeric_range_test_int H range b e v
    simp only [range_include_numeric_range, Eff.bind_eq]
    rw [Eff.bind_out_ret _ _ _ ht]
    simp [hout, rb_check_to_integer, NIL_P, ih]

theorem out_of_range_ret (H : Host) (b e : Value) (excl : Bool) (err : Int) (res : BegLen)
    (h : (out_of_range H b e excl err).out = .ret res) : res.ret = .Qnil ∧ err = 0 := by
  unfold out_of_range at h
  split at h
  · simp [Eff.raise] at h
  · simp [Eff.pure] at h
    subst h
    simp_all

theorem beg_len_longs_exact (b e len err : Int) (excl : Bool)
    (hlen0 : 0 ≤ len) (hlen1 : len ≤ LONG_MAX)
    (hb0 : LONG_MIN ≤ b) (hb1 : b ≤ LONG_MAX) (he0 : LONG_MIN ≤ e) (he1 : e ≤ LONG_MAX)
    (hend : specEnd e len excl err ≤ LONG_MAX)
    (hdiff : LONG_MIN ≤ specEnd e len excl err - (specSlice b e len excl err).1)
    (beg1 len2 : Int) (h : beg_len_longs b e excl len err = some (beg1, len2)) :
    (beg1, len2) = specSlice b e len excl err ∧ 0 ≤ beg1 ∧ 0 ≤ len2 := by
  have hL0 : LONG_MIN = -(2 ^ 63) := rfl
  have hL1 : LONG_MAX = 2 ^ 63 - 1 := rfl
  -- the start
  have hstart : (if b < 0 then wrapLong (b + len) else b) = (specSlice b e len excl err).1 := by
    simp only [specSlice]
    split
    · exact wrapLong_eq (by omega) (by omega)
    · rfl
  have hsdef : (specSlice b e len excl err).1 = if b < 0 then b + len else b := rfl
  -- the clamped end
  have hend1 : (if (err = 0 ∨ err = 2) ∧ len < e then len else e)
      = (if err = 0 ∨ err = 2 then min e len else e) := by
    by_cases hm : err = 0 ∨ err = 2
    · by_cases hl : len < e
      · simp [hm, hl, min_eq_right hl.le]
      · simp [hm, hl, min_eq_left (not_lt.1 hl)]
    · simp [hm]
  generalize he1def : (if err = 0 ∨ err = 2 then min e len else e) = e1 at hend1
  have he1lo : LONG_MIN ≤ e1 := by
    rw [← he1def]; split
    · exact le_min he0 (by omega)
    · exact he0
  have he1hi : e1 ≤ LONG_MAX := by
    rw [← he1def]; split
    · exact le_trans (min_le_left _ _) he1
    · exact he1
  have hend2 : (if e1 < 0 then wrapLong (e1 + len) else e1) = (if e1 < 0 then e1 + len else e1) := by
    split
    · exact wrapLong_eq (by omega) (by omega)
    · rfl
  generalize he2def : (if e1 < 0 then e1 + len else e1) = e2 at hend2
  have hspecEnd : specEnd e len excl err = e2 + (if excl then 0 else 1) := by
    simp only [specEnd, he1def, he2def]
  have he2lo : LONG_MIN ≤ e2 := by
    rw [← he2def]; split <;> omega
  have hend3 : (if (!excl) = true then wrapLong (e2 + 1) else e2) = specEnd e len excl err := by
    rw [hspecEnd]
    cases excl
    · simp only [Bool.not_false, if_true, Bool.false_eq_true, if_false]
      rw [hspecEnd] at hend
      simp only [Bool.false_eq_true, if_false] at hend
      exact wrapLong_eq (by omega) hend
    · simp
  unfold beg_len_longs at h
  simp only [hstart, hend1, hend2, hend3] at h
  generalize hS : (specSlice b e len excl err).1 = start at h hdiff hsdef
  generalize hE : specEnd e len excl err = e3 at h hdiff hend
  split at h
  · cases h
  · split at h
    · cases h
    · rename_i hn1 hn2
      have h0 : 0 ≤ start := by
        by_cases hb : b < 0
        · have : ¬ start < 0 := fun hs => hn1 ⟨hb, hs⟩
          omega
        · rw [hsdef]; simp only [hb, if_false]; omega
      have hw : wrapLong (e3 - start) = e3 - start := wrapLong_eq hdiff (by omega)
      rw [hw] at h
      simp only [Option.some.injEq, Prod.mk.injEq] at h
      obtain ⟨h1, h2⟩ := h
      subst h1
      refine ⟨?_, h0, ?_⟩
      · have hsl : specSlice b e len excl err = (start, max 0 (e3 - start)) := by
          rw [← hS, ← hE]; rfl
        rw [hsl, ← h2]
        congr 1
        by_cases hneg : e3 - start < 0
        · rw [if_pos hneg, max_eq_left]; omega
        · rw [if_neg hneg, max_eq_right]; omega
      · rw [← h2]; split <;> omega

theorem NUM2LONG_long (H : Host) (v : Value) (n : Int) (h : NUM2LONG H v = Eff.pure n) :
    LONG_MIN ≤ n ∧ n ≤ LONG_MAX := by
  unfold NUM2LONG at h
  split at h
  · split at h
    · simp only [Eff.pure_eq, Eff.pure, Eff.mk.injEq, Outcome.ret.injEq, true_and] at h
      subst h; assumption
    · simp [Eff.pure, Eff.raise] at h
  · split at h
    · simp only [Eff.pure_eq, Eff.pure, Eff.mk.injEq, Outcome.ret.injEq, true_and] at h
      subst h; assumption
    · simp [Eff.pure, Eff.raise] at h
  · simp [Eff.pure, Eff.raise] at h
  · split at h
    · split at h
      · simp only [Eff.pure_eq, Eff.pure, Eff.mk.injEq, Outcome.ret.injEq, true_and] at h
        subst h; assumption
      · simp [Eff.pure, Eff.raise] at h
    · simp [Eff.pure, Eff.raise] at h

theorem beg_len_core_of_longs (H : Host) (bv ev : Value) (b e : Int) (excl : Bool) (len err : Int)
    (hb : NUM2LONG H bv = Eff.pure b) (he : NUM2LONG H ev = Eff.pure e) :
    beg_len_core H bv ev excl len err
      = match beg_len_longs b e excl len err with
        | none => out_of_range H bv ev excl err
        | some (beg, len) => Eff.pure ⟨.Qtrue, some beg, some len⟩ := by
  simp [beg_len_core, hb, he]

theorem specSlice_fixnum_fits (b e len err : Int) (excl : Bool)
    (hfb : FIXABLE b = true) (hfe : FIXABLE e = true) (hlen0 : 0 ≤ len) (hlen1 : len ≤ LONG_MAX) :
    specEnd e len excl err ≤ LONG_MAX ∧
    LONG_MIN ≤ specEnd e len excl err - (specSlice b e len excl err).1 := by
  rw [FIXABLE_iff] at hfb hfe
  have h1 : FIXNUM_MIN = -(2 ^ 62) := rfl
  have h2 : FIXNUM_MAX = 2 ^ 62 - 1 := rfl
  have h3 : LONG_MIN = -(2 ^ 63) := rfl
  have h4 : LONG_MAX = 2 ^ 63 - 1 := rfl
  rw [h1, h2] at hfb hfe
  rw [h4] at hlen1
  rw [h3, h4]
  simp only [specSlice, specEnd, min_def]
  cases excl <;> simp only [Bool.false_eq_true, if_false, if_true] <;> split_ifs <;> omega

theorem out_of_range_eq (H : Host) (b e : Value) (excl : Bool) (err : Int) :
    ∃ msg, out_of_range H b e excl err
      = if err = 0 then Eff.pure ⟨.Qnil, none, none⟩ else Eff.raise (.rb_eRangeError msg) := by
  refine ⟨toString (VALUE_word H b) ++ ".." ++ (if excl then "." else "")
      ++ toString (VALUE_word H e) ++ " out of range", ?_⟩
  unfold out_of_range
  by_cases h : err = 0
  · simp [h]
  · simp only [h, ne_eq, not_false_eq_true, if_true, if_false]

theorem NUM2LONG_half (H : Host) : NUM2LONG H (.float (1 / 2)) = Eff.pure 0 := by
  have hf : truncQ (1 / 2) = 0 := by
    unfold truncQ
    rw [if_pos (by norm_num)]
    rw [Int.floor_eq_iff]; norm_num
  unfold NUM2LONG
  simp only [hf]
  decide

theorem funcall_cmp_shape (H : Host) (a b : Value) :
    (∃ v, funcall_cmp H a b = ⟨[.cmp a b], .ret v⟩) ∨
    (∃ x, funcall_cmp H a b = ⟨[.cmp a b], .raised x⟩) := by
  unfold funcall_cmp
  split <;> try (left; exact ⟨_, rfl⟩)
  cases h : H.cmp a b with
  | ok v => left; exact ⟨v, by simp [send]⟩
  | error x => right; exact ⟨x, by simp [send]⟩

/-- The object that a successful `range_init` leaves behind. -/
theorem range_init_cases (H : Host) (range : RObject) (beg end_ : Value) (excl : Bool) :
    let done : RObject := { range with
      beg := some beg, end_ := some end_, excl := some (if excl then .Qtrue else .Qfalse) }
    ((FIXNUM_P beg && FIXNUM_P end_) = true →
      range_init H range beg end_ excl = (⟨[], .ret ()⟩, done)) ∧
    ((FIXNUM_P beg && FIXNUM_P end_) = false →
      (∀ v, (funcall_cmp H beg end_).out = .ret v → v ≠ .Qnil →
        range_init H range beg end_ excl = (⟨[.cmp beg end_], .ret ()⟩, done)) ∧
      ((funcall_cmp H beg end_).out = .ret .Qnil ∨ (∃ x, (funcall_cmp H beg end_).out = .raised x) →
        range_init H range beg end_ excl
          = (⟨[.cmp beg end_], .raised (.rb_eArgError "bad value for range")⟩, range))) := by
  intro done
  constructor
  · intro hf
    have : (!FIXNUM_P beg || !FIXNUM_P end_) = false := by
      simp only [Bool.and_eq_true] at hf
      simp [hf.1, hf.2]
    simp [range_init, this, Eff.pure, SET_EXCL, done]
  · intro hf
    have hcond : (!FIXNUM_P beg || !FIXNUM_P end_) = true := by
      cases h1 : FIXNUM_P beg <;> cases h2 : FIXNUM_P end_ <;> simp_all
    rcases funcall_cmp_shape H beg end_ with ⟨v, hv⟩ | ⟨x, hx⟩
    · constructor
      · intro v2 hv2 hne
        rw [hv] at hv2
        simp only [Outcome.ret.injEq] at hv2
        subst hv2
        have hn : NIL_P v = false := by
          cases v <;> simp_all [NIL_P]
        simp [range_init, hcond, range_check, hv, rb_rescue, Eff.bind, hn, Eff.pure, SET_EXCL, done]
      · intro hfail
        rcases hfail with h | ⟨x, h⟩
        · rw [hv] at h
          simp only [Outcome.ret.injEq] at h
          subst h
          simp [range_init, hcond, range_check, hv, rb_rescue, Eff.bind, NIL_P, range_failed,
            Eff.raise]
        · rw [hv] at h
          cases h
    · constructor
      · intro v2 hv2 _
        rw [hx] at hv2
        cases hv2
      · intro _
        simp [range_init, hcond, range_check, hx, rb_rescue, Eff.bind, range_failed, Eff.raise]

theorem Init_Range_receiver (H : Host) (fuel : Nat) (c : Call) (range : RObject)
    (hinit : rb_ivar_defined range.beg = true) : (Init_Range H fuel c range).2 = range := by
  cases c <;> try rfl
  rename_i argv
  simp only [Init_Range, range_initialize]
  cases hs : (rb_scan_args_21 argv).out with
  | ret p =>
    obtain ⟨beg, end_, flags⟩ := p
    simp [hinit]
  | raised x => simp
  | outOfFuel => simp

theorem range_hash_depends (H : Host) (r : RObject) :
    range_hash H r
      = LONG2FIX_word (((if EXCL r then 1 else 0) ^^^ ((H.hash (rb_ivar_get r.beg) <<< 1) % 2 ^ 64)
          ^^^ ((H.hash (rb_ivar_get r.end_) <<< 9) % 2 ^ 64)) ^^^ ((if EXCL r then 1 else 0) <<< 24)) := rfl

theorem plainHost_hash_consistent :
    ∀ x y, plainHost.eql x y = true → plainHost.hash x = plainHost.hash y := by
  intro x y h
  have : x = y := by simpa [plainHost] using h
  rw [this]

/-! ### The examples of the specification, evaluated -/

theorem range_each_example_inclusive :
    (range_each plainHost 6 true (intRange 1 5 false)).visited
      = [.int 1, .int 2, .int 3, .int 4, .int 5] := by
  decide

theorem range_each_example_exclusive :
    (range_each plainHost 6 true (intRange 1 5 true)).visited
      = [.int 1, .int 2, .int 3, .int 4] := by
  decide

theorem range_step_example :
    (range_step plainHost 5 true [.int 3] (intRange 1 10 false)).visited
      = [.int 1, .int 4, .int 7, .int 10] := by
  decide

/-- Outside exact arithmetic the loop of `range_step` wraps: with the step `LONG_MAX` the
addition `i += unit` overflows after the first value, and two more values are yielded. -/
theorem range_step_example_overflow :
    range_step plainHost 4 true [.int (2 ^ 63 - 1)] (intRange 1 10 false)
      = ⟨[.yield (.int 1), .yield (.int (-(2 ^ 63))), .yield (.int (-1))], .ret .self⟩ := by
  decide

theorem range_include_examples :
    (range_include plainHost 1 (intRange 1 10 false) (.int 5)).out = .ret .Qtrue ∧
    (range_include plainHost 1 (intRange 1 10 false) (.int 10)).out = .ret .Qtrue ∧
    (range_include plainHost 1 (intRange 1 10 true) (.int 9)).out = .ret .Qtrue := by
  decide

theorem rb_range_beg_len_example :
    rb_range_beg_len plainHost (.range (intRange (-3) (-1) false)) 5 1
        = Eff.pure ⟨.Qtrue, some 2, some 3⟩ ∧
    rb_range_beg_len plainHost (.range (intRange (-3) (-1) false)) 5 0
        = Eff.pure ⟨.Qtrue, some 2, some 3⟩ ∧
    rb_range_beg_len plainHost (.range (intRange (-3) (-1) false)) 5 2
        = Eff.pure ⟨.Qtrue, some 2, some 3⟩ := by
  decide

/-! ### String forms -/

theorem take_dots (excl : Bool) :
    "...".take (if excl then 3 else 2) = if excl then "..." else ".." := by
  cases excl <;> decide

theorem digitChar_isDigit (k : Nat) (h : k < 10) :
    (Nat.digitChar k).isDigit = true ∧ digitVal (Nat.digitChar k) = k := by
  interval_cases k <;> decide

theorem decimalVal_append_single (ds : List Char) (c : Char) :
    decimalVal (ds ++ [c]) = 10 * decimalVal ds + digitVal c := by
  simp [decimalVal, List.foldl_append]

theorem toDigitsCore_spec :
    ∀ (fuel n : Nat) (ds : List Char), n < fuel →
      ∃ pre : List Char, Nat.toDigitsCore 10 fuel n ds = pre ++ ds ∧ pre ≠ [] ∧
        (∀ c ∈ pre, c.isDigit = true) ∧ decimalVal pre = n := by
  intro fuel
  induction fuel with
  | zero => intro n ds h; omega
  | succ f ih =>
    intro n ds h
    have hd := digitChar_isDigit (n % 10) (Nat.mod_lt _ (by decide))
    by_cases h0 : n / 10 = 0
    · refine ⟨[Nat.digitChar (n % 10)], ?_, by simp, ?_, ?_⟩
      · simp [Nat.toDigitsCore, h0]
      · intro c hc
        simp only [List.mem_singleton] at hc
        rw [hc]; exact hd.1
      · simp only [decimalVal, List.foldl_cons, List.foldl_nil, hd.2]
        omega
    · obtain ⟨pre, hpre, _, hdig, hval⟩ := ih (n / 10) (Nat.digitChar (n % 10) :: ds) (by omega)
      refine ⟨pre ++ [Nat.digitChar (n % 10)], ?_, by simp, ?_, ?_⟩
      · simp [Nat.toDigitsCore, h0, hpre]
      · intro c hc
        rcases List.mem_append.1 hc with hc | hc
        · exact hdig c hc
        · simp only [List.mem_singleton] at hc
          rw [hc]; exact hd.1
      · rw [decimalVal_append_single, hval, hd.2]
        omega

theorem Nat_repr_spec (n : Nat) :
    (Nat.repr n).data ≠ [] ∧ (∀ c ∈ (Nat.repr n).data, c.isDigit = true) ∧
      decimalVal (Nat.repr n).data = n := by
  obtain ⟨pre, hpre, hne, hdig, hval⟩ := toDigitsCore_spec (n + 1) n [] (by omega)
  have : (Nat.repr n).data = pre := by
    simp [Nat.repr, Nat.toDigits, hpre, List.asString]
  rw [this]
  exact ⟨hne, hdig, hval⟩


theorem Int_toString_data (i : Int) :
    (toString i).data = (if i < 0 then ['-'] else []) ++ (Nat.repr i.natAbs).data := by
  cases i with
  | ofNat m =>
    have : ¬ (Int.ofNat m < 0) := by simp
    simp only [this, if_false, List.nil_append]
    rfl
  | negSucc m =>
    have : Int.negSucc m < 0 := Int.negSucc_lt_zero m
    simp only [this, if_true]
    rfl

theorem Int_toString_no_dot (i : Int) : ∀ c ∈ (toString i).data, c ≠ '.' := by
  intro c hc
  rw [Int_toString_data] at hc
  rcases List.mem_append.1 hc with hc | hc
  · split at hc
    · simp only [List.mem_singleton] at hc
      rw [hc]; decide
    · cases hc
  · have := (Nat_repr_spec i.natAbs).2.1 c hc
    intro h
    rw [h] at this
    exact absurd this (by decide)

theorem Int_toString_inj (i j : Int) (h : (toString i).data = (toString j).data) : i = j := by
  rw [Int_toString_data, Int_toString_data] at h
  obtain ⟨hne_i, hdig_i, hval_i⟩ := Nat_repr_spec i.natAbs
  obtain ⟨hne_j, hdig_j, hval_j⟩ := Nat_repr_spec j.natAbs
  have hhead : ∀ (n : Nat) (l : List Char), '-' :: l = (Nat.repr n).data → False := by
    intro n l hl
    have := (Nat_repr_spec n).2.1 '-' (by rw [← hl]; simp)
    exact absurd this (by decide)
  by_cases hi : i < 0 <;> by_cases hj : j < 0
  · simp only [hi, hj, if_true, List.cons_append, List.nil_append, List.cons.injEq, true_and] at h
    have : i.natAbs = j.natAbs := by rw [← hval_i, ← hval_j, h]
    omega
  · simp only [hi, hj, if_true, if_false, List.cons_append, List.nil_append] at h
    exact (hhead _ _ h).elim
  · simp only [hi, hj, if_true, if_false, List.cons_append, List.nil_append] at h
    exact (hhead _ _ h.symm).elim
  · simp only [hi, hj, if_false, List.nil_append] at h
    have : i.natAbs = j.natAbs := by rw [← hval_i, ← hval_j, h]
    omega

theorem dots_split_unique :
    ∀ (B1 B2 : List Char) (k1 k2 : Nat) (E1 E2 : List Char),
      (∀ c ∈ B1, c ≠ '.') → (∀ c ∈ B2, c ≠ '.') → (∀ c ∈ E1, c ≠ '.') → (∀ c ∈ E2, c ≠ '.') →
      0 < k1 → 0 < k2 →
      B1 ++ (List.replicate k1 '.' ++ E1) = B2 ++ (List.replicate k2 '.' ++ E2) →
      B1 = B2 ∧ k1 = k2 ∧ E1 = E2 := by
  have dots : ∀ (k1 k2 : Nat) (E1 E2 : List Char),
      (∀ c ∈ E1, c ≠ '.') → (∀ c ∈ E2, c ≠ '.') →
      List.replicate k1 '.' ++ E1 = List.replicate k2 '.' ++ E2 → k1 = k2 ∧ E1 = E2 := by
    intro k1
    induction k1 with
    | zero =>
      intro k2 E1 E2 h1 h2 h
      cases k2 with
      | zero => exact ⟨rfl, by simpa using h⟩
      | succ k =>
        simp only [List.replicate_zero, List.nil_append, List.replicate_succ,
          List.cons_append] at h
        exact absurd rfl (h1 '.' (by rw [h]; simp))
    | succ k ih =>
      intro k2 E1 E2 h1 h2 h
      cases k2 with
      | zero =>
        simp only [List.replicate_zero, List.nil_append, List.replicate_succ,
          List.cons_append] at h
        exact absurd rfl (h2 '.' (by rw [← h]; simp))
      | succ k' =>
        simp only [List.replicate_succ, List.cons_append, List.cons.injEq, true_and] at h
        obtain ⟨hk, hE⟩ := ih k' E1 E2 h1 h2 h
        exact ⟨by omega, hE⟩
  intro B1
  induction B1 with
  | nil =>
    intro B2 k1 k2 E1 E2 _ hB2 hE1 hE2 hk1 hk2 h
    cases B2 with
    | nil =>
      obtain ⟨hk, hE⟩ := dots k1 k2 E1 E2 hE1 hE2 (by simpa using h)
      exact ⟨rfl, hk, hE⟩
    | cons c B =>
      obtain ⟨k, rfl⟩ : ∃ k, k1 = k + 1 := ⟨k1 - 1, by omega⟩
      simp only [List.nil_append, List.replicate_succ, List.cons_append, List.cons.injEq] at h
      exact absurd h.1.symm (hB2 c (by simp))
  | cons c B ih =>
    intro B2 k1 k2 E1 E2 hB1 hB2 hE1 hE2 hk1 hk2 h
    cases B2 with
    | nil =>
      obtain ⟨k, rfl⟩ : ∃ k, k2 = k + 1 := ⟨k2 - 1, by omega⟩
      simp only [List.nil_append, List.replicate_succ, List.cons_append, List.cons.injEq] at h
      exact absurd h.1 (hB1 c (by simp))
    | cons c2 B2 =>
      simp only [List.cons_append, List.cons.injEq] at h
      obtain ⟨hB, hk, hE⟩ := ih B2 k1 k2 E1 E2 (fun x hx => hB1 x (by simp [hx]))
        (fun x hx => hB2 x (by simp [hx])) hE1 hE2 hk1 hk2 h.2
      exact ⟨by rw [h.1, hB], hk, hE⟩

theorem range_to_s_int (H : Host) (range : RObject) (b e : Int)
    (hb : range.beg = some (.int b)) (he : range.end_ = some (.int e)) :
    (range_to_s H range).1.data
      = (toString b).data ++ (List.replicate (if EXCL range then 3 else 2) '.'
          ++ (toString e).data) := by
  simp only [range_to_s, range_join, take_dots, hb, he, rb_ivar_get, Option.getD,
    rb_obj_as_string, String.data_append, List.append_assoc]
  cases EXCL range <;> rfl

/-! ### Slices and the maximum -/

theorem beg_len_longs_inside (b e len err : Int) (excl : Bool)
    (hlen0 : 0 ≤ len) (hlen1 : len ≤ LONG_MAX)
    (hb0 : LONG_MIN ≤ b) (hb1 : b ≤ LONG_MAX) (he0 : LONG_MIN ≤ e) (he1 : e ≤ LONG_MAX)
    (hmode : err = 0 ∨ err = 2)
    (start count : Int) (h : beg_len_longs b e excl len err = some (start, count)) :
    0 ≤ start ∧ start ≤ len ∧ 0 ≤ count ∧ start + count ≤ len + (if excl then 0 else 1) := by
  have hL0 : LONG_MIN = -(2 ^ 63) := rfl
  have hL1 : LONG_MAX = 2 ^ 63 - 1 := rfl
  rw [hL0] at hb0 he0
  rw [hL1] at hb1 he1 hlen1
  unfold beg_len_longs at h
  have hbeg : (if b < 0 then wrapLong (b + len) else b) = (if b < 0 then b + len else b) := by
    split
    · exact wrapLong_eq (by omega) (by omega)
    · rfl
  simp only [hbeg, hmode, true_and] at h
  generalize hS : (if b < 0 then b + len else b) = s at h
  split at h
  · cases h
  split at h
  · cases h
  rename_i hn1 hn2
  have hs0 : 0 ≤ s := by
    by_cases hb : b < 0
    · have : ¬ s < 0 := fun hs => hn1 ⟨hb, hs⟩
      omega
    · rw [← hS]; simp only [hb, if_false]; omega
  have hs1 : s ≤ len := by omega
  generalize hE1 : (if len < e then len else e) = e1 at h
  have he1a : e1 ≤ len := by rw [← hE1]; split <;> omega
  have he1b : -(2 ^ 63) ≤ e1 := by rw [← hE1]; split <;> omega
  have hend2 : (if e1 < 0 then wrapLong (e1 + len) else e1) = (if e1 < 0 then e1 + len else e1) := by
    split
    · exact wrapLong_eq (by omega) (by omega)
    · rfl
  simp only [hend2] at h
  generalize hE2 : (if e1 < 0 then e1 + len else e1) = e2 at h
  have he2a : e2 ≤ len := by rw [← hE2]; split <;> omega
  have he2b : -(2 ^ 63) ≤ e2 := by rw [← hE2]; split <;> omega
  simp only [Option.some.injEq, Prod.mk.injEq] at h
  obtain ⟨h1, h2⟩ := h
  subst h1
  refine ⟨hs0, hs1, ?_, ?_⟩
  · rw [← h2]; split <;> omega
  · rw [← h2]
    cases excl
    · simp only [Bool.not_false, if_true, Bool.false_eq_true, if_false]
      unfold wrapLong
      split <;> omega
    · simp only [Bool.not_true, Bool.false_eq_true, if_false, if_true]
      unfold wrapLong
      split <;> omega

theorem range_max_fixnum (H : Host) (range : RObject) (b e : Int)
    (hb : range.beg = some (.int b)) (he : range.end_ = some (.int e))
    (_hfb : FIXABLE b = true) (hfe : FIXABLE e = true) :
    (e < b → range_max H false range = ⟨[.cmp (.int b) (.int e)], .ret .Qnil⟩) ∧
    (b ≤ e → EXCL range = false →
      range_max H false range = ⟨[.cmp (.int b) (.int e)], .ret (.int e)⟩) ∧
    (b ≤ e → EXCL range = true → INT_MIN < e → e ≤ INT_MAX →
      range_max H false range = ⟨[.cmp (.int b) (.int e)], .ret (.int (e - 1))⟩) := by
  have hip : (FIXNUM_P (.int e) || kind_of_Integer (.int e)) = true := by
    simp [FIXNUM_P, hfe]
  refine ⟨?_, ?_, ?_⟩
  · intro h
    have h1 : ¬ b < e := by omega
    have h2 : ¬ b = e := by omega
    have h2q : ¬ (b : ℚ) < e := by exact_mod_cast h1
    simp [range_max, hb, he, rb_ivar_get, hip, funcall_cmp, cmp3, send, rb_cmpint, Eff.bind,
      Eff.pure, h1, h2]
  · intro h hx
    rcases lt_or_eq_of_le h with h1 | h1
    · simp [range_max, hb, he, rb_ivar_get, hip, hx, funcall_cmp, cmp3, send, rb_cmpint,
        Eff.bind, Eff.pure, h1]
    · subst h1
      simp [range_max, hb, he, rb_ivar_get, hip, hx, funcall_cmp, cmp3, send, rb_cmpint,
        Eff.bind, Eff.pure]
  · intro h hx hlo hhi
    have hw : wrapInt (e - 1) = e - 1 := by
      unfold wrapInt
      unfold INT_MIN at hlo
      unfold INT_MAX at hhi
      omega
    have hint : INT_MIN ≤ e ∧ e ≤ INT_MAX := ⟨by omega, hhi⟩
    rcases lt_or_eq_of_le h with h1 | h1
    · simp [range_max, hb, he, rb_ivar_get, hip, hx, funcall_cmp, cmp3, send, rb_cmpint,
        Eff.bind, Eff.pure, h1, hfe, FIX2INT, hint, LONG2NUM, hw]
    · subst h1
      simp [range_max, hb, he, rb_ivar_get, hip, hx, funcall_cmp, cmp3, send, rb_cmpint,
        Eff.bind, Eff.pure, hfe, FIX2INT, hint, LONG2NUM, hw]

/-- In the mode 1 of `rb_range_beg_len` the only jump to `out_of_range` is for a begin that is
still negative after the length is added; otherwise the start is the begin, offset by the
length when negative. -/
theorem beg_len_longs_mode1 (b e len : Int) (excl : Bool)
    (hlen0 : 0 ≤ len) (hlen1 : len ≤ LONG_MAX) (hb0 : LONG_MIN ≤ b) :
    ((b < 0 ∧ b + len < 0) → beg_len_longs b e excl len 1 = none) ∧
    (¬ (b < 0 ∧ b + len < 0) →
      ∃ count, beg_len_longs b e excl len 1 = some (if b < 0 then b + len else b, count)) := by
  have hw : b < 0 → wrapLong (b + len) = b + len := fun hneg =>
    wrapLong_eq (by omega) (by omega)
  constructor
  · rintro ⟨hneg, hstay⟩
    simp [beg_len_longs, hneg, hw hneg, hstay]
  · intro hnot
    by_cases hneg : b < 0
    · have hge : ¬ b + len < 0 := fun h => hnot ⟨hneg, h⟩
      simp [beg_len_longs, hneg, hw hneg, hge]
    · simp [beg_len_longs, hneg]

/-! ### Incomparable operands in `include?` -/

theorem r_le_incomparable (H : Host) (a b : Value) (h : (funcall_cmp H a b).out = .ret .Qnil) :
    (r_le H a b).out = .ret .Qfalse := by
  simp only [r_le, Eff.bind_eq]
  rw [Eff.bind_out_ret _ _ _ h]
  simp [NIL_P, Eff.pure]

theorem r_lt_incomparable (H : Host) (a b : Value) (h : (funcall_cmp H a b).out = .ret .Qnil) :
    (r_lt H a b).out = .ret .Qfalse := by
  simp only [r_lt, Eff.bind_eq]
  rw [Eff.bind_out_ret _ _ _ h]
  simp [NIL_P, Eff.pure]

theorem numeric_range_test_incomparable (H : Host) (range : RObject) (beg end_ val : Value)
    (h : (funcall_cmp H beg val).out = .ret .Qnil ∨
      ((∃ t, (r_le H beg val).out = .ret t) ∧ (funcall_cmp H val end_).out = .ret .Qnil)) :
    (numeric_range_test H range beg end_ val).out = .ret false := by
  rcases h with h | ⟨⟨t, ht⟩, h⟩
  · simp only [numeric_range_test, Eff.bind_eq]
    rw [Eff.bind_out_ret _ _ _ (r_le_incomparable H _ _ h)]
    simp [c_true, Eff.pure]
  · simp only [numeric_range_test, Eff.bind_eq]
    rw [Eff.bind_out_ret _ _ _ ht]
    by_cases hc : c_true t = true
    · by_cases hx : EXCL range = true
      · simp only [hc, hx, if_true]
        rw [Eff.bind_out_ret _ _ _ (r_lt_incomparable H _ _ h)]
        simp [c_true, Eff.pure]
      · simp only [hc, hx, if_true, Bool.false_eq_true, if_false]
        rw [Eff.bind_out_ret _ _ _ (r_le_incomparable H _ _ h)]
        simp [c_true, Eff.pure]
    · simp [hc, Eff.pure]

theorem include_loop_stuck (H : Host) (range : RObject) (beg end_ val : Value)
    (htest : (numeric_range_test H range beg end_ val).out = .ret false)
    (hconv : (!NIL_P (rb_check_to_integer H beg "to_int")
      || !NIL_P (rb_check_to_integer H end_ "to_int")) = true) :
    ∀ fuel : Nat, (range_include_numeric_range H range beg end_ val fuel).out = .outOfFuel := by
  intro fuel
  induction fuel with
  | zero => rfl
  | succ n ih =>
    simp only [range_include_numeric_range, Eff.bind_eq]
    rw [Eff.bind_out_ret _ _ _ htest]
    simp only [Bool.false_eq_true, if_false, hconv, if_true]
    exact ih

/-! ### The generic successor loop under `step` and `each` -/

theorem Eff.visited_bind {α β : Type} (m : Eff α) (f : α → Eff β) :
    (Eff.bind m f).visited = m.visited ++ (match m.out with
      | .ret a => (f a).visited
      | _ => []) := by
  unfold Eff.bind Eff.visited
  cases h : m.out <;> simp [List.filterMap_append]

theorem Eff.forget_bind {α β : Type} (m : Eff α) (f : α → Eff β) :
    (Eff.bind m f).out.forget = (match m.out with
      | .ret a => (f a).out.forget
      | .raised e => .raised e
      | .outOfFuel => .outOfFuel) := by
  unfold Eff.bind
  cases h : m.out <;> simp [Outcome.forget]

theorem send_visited (ev : Event) (r : Except Exc Value) (h : ∀ v, ev ≠ .yield v) :
    (send ev r).visited = [] := by
  cases r <;> cases ev <;> simp_all [send, Eff.visited]

theorem funcall_cmp_visited (H : Host) (a b : Value) : (funcall_cmp H a b).visited = [] := by
  rcases funcall_cmp_shape H a b with ⟨v, h⟩ | ⟨x, h⟩ <;> rw [h] <;> rfl

theorem funcall_succ_visited (H : Host) (v : Value) : (funcall_succ H v).visited = [] := by
  unfold funcall_succ
  split <;> exact send_visited _ _ (by intro v h; cases h)

theorem Eff.visited_bind_nil {α β : Type} (m : Eff α) (f : α → Eff β)
    (hm : m.visited = []) (hf : ∀ a, (f a).visited = []) : (Eff.bind m f).visited = [] := by
  rw [Eff.visited_bind, hm]
  cases m.out <;> simp [hf]

theorem binop_send_visited (H : Host) (op : String) (a b : Value) :
    (send (.binop op a b) (H.binop op a b)).visited = [] :=
  send_visited _ _ (by intro v h; cases h)

theorem rb_cmpint_visited (H : Host) (val a b : Value) : (rb_cmpint H val a b).visited = [] := by
  unfold rb_cmpint
  split
  · rfl
  · rfl
  · simp only [Eff.bind_eq, Eff.pure_eq]
    apply Eff.visited_bind_nil _ _ (binop_send_visited H _ _ _)
    intro gt
    split
    · rfl
    · simp only [Eff.pure_bind]
      apply Eff.visited_bind_nil _ _ (binop_send_visited H _ _ _)
      intro lt
      split
      · rfl
      · rfl

theorem r_le_visited (H : Host) (a b : Value) : (r_le H a b).visited = [] := by
  simp only [r_le, Eff.bind_eq, Eff.pure_eq]
  apply Eff.visited_bind_nil _ _ (funcall_cmp_visited H a b)
  intro r
  split
  · rfl
  · simp only [Eff.pure_bind]
    apply Eff.visited_bind_nil _ _ (rb_cmpint_visited H r a b)
    intro c
    split
    · rfl
    · split <;> rfl

theorem r_lt_visited (H : Host) (a b : Value) : (r_lt H a b).visited = [] := by
  simp only [r_lt, Eff.bind_eq, Eff.pure_eq]
  apply Eff.visited_bind_nil _ _ (funcall_cmp_visited H a b)
  intro r
  split
  · rfl
  · simp only [Eff.pure_bind]
    apply Eff.visited_bind_nil _ _ (rb_cmpint_visited H r a b)
    intro c
    split
    · rfl
    · rfl


theorem each_i_eq (v : Value) : each_i v () = ⟨[.yield v], .ret ()⟩ := rfl

theorem step_i_eq (v : Value) (c n : Nat) (hc : 0 < c) (hcn : c ≤ n) (hmax : (n : Int) ≤ LONG_MAX) :
    step_i v ((c : Int), (n : Int))
      = if c - 1 = 0 then ⟨[.yield v], .ret ((n : Int), (n : Int))⟩
        else ⟨[], .ret (((c - 1 : Nat) : Int), (n : Int))⟩ := by
  have hw : wrapLong ((c : Int) - 1) = ((c - 1 : Nat) : Int) := by
    have : ((c - 1 : Nat) : Int) = (c : Int) - 1 := by omega
    rw [this]
    have h0 : LONG_MIN ≤ 0 := by decide
    exact wrapLong_eq (by omega) (by omega)
  simp only [step_i, hw, Eff.bind_eq, Eff.pure_eq]
  by_cases h : c - 1 = 0
  · simp [h, rb_yield, Eff.bind, Eff.pure]
  · have : ¬ ((c - 1 : Nat) : Int) = 0 := by omega
    simp [h, this, Eff.pure, Eff.bind]

theorem visited_mk_yield {α : Type} (v : Value) (o : Outcome α) :
    (Eff.mk [.yield v] o).visited = [v] := rfl

theorem visited_mk_nil {α : Type} (o : Outcome α) : (Eff.mk [] o).visited = [] := rfl

theorem downCounter_nil {α : Type} (n c : Nat) : downCounter n c ([] : List α) = [] := by
  cases c <;> rfl

theorem downCounter_cons {α : Type} (n c : Nat) (x : α) (xs : List α) :
    downCounter n c (x :: xs)
      = if c - 1 = 0 then x :: downCounter n n xs else downCounter n (c - 1) xs := rfl

theorem step_vs_each_incl (H : Host) (n : Nat) (hn : 0 < n) (hmax : (n : Int) ≤ LONG_MAX)
    (e : Value) :
    ∀ (fuel : Nat) (v : Value) (c : Nat), 0 < c → c ≤ n →
      (range_each_func_incl H step_i fuel v e ((c : Int), (n : Int))).visited
        = downCounter n c (range_each_func_incl H each_i fuel v e ()).visited ∧
      (range_each_func_incl H step_i fuel v e ((c : Int), (n : Int))).out.forget
        = (range_each_func_incl H each_i fuel v e ()).out.forget := by
  intro fuel
  induction fuel with
  | zero => intro v c _ _; exact ⟨rfl, rfl⟩
  | succ f ih =>
    intro v c hc hcn
    simp only [range_each_func_incl, Eff.bind_eq, Eff.pure_eq, Eff.pure_bind, each_i_eq,
      step_i_eq v c n hc hcn hmax]
    simp only [Eff.visited_bind, Eff.forget_bind, r_le_visited, List.nil_append]
    cases hle : (r_le H v e).out with
    | raised x => exact ⟨rfl, rfl⟩
    | outOfFuel => exact ⟨rfl, rfl⟩
    | ret cv =>
      simp only []
      by_cases hr : RTEST cv = true
      swap
      · simp only [hr, Bool.false_eq_true, if_false]
        exact ⟨rfl, rfl⟩
      simp only [hr, if_true]
      by_cases hz : cv = LONG2NUM 0
      · by_cases h1 : c - 1 = 0
        · simp [hz, h1, Eff.bind, Eff.pure, Eff.visited, downCounter, Outcome.forget]
        · simp [hz, h1, Eff.bind, Eff.pure, Eff.visited, downCounter, Outcome.forget]
      · simp only [hz, if_false]
        cases hs : (funcall_succ H v).out with
        | raised x =>
          by_cases h1 : c - 1 = 0
          · simp only [h1, if_true, Eff.visited_bind, Eff.forget_bind, hs,
              funcall_succ_visited, List.nil_append]
            simp [visited_mk_yield, visited_mk_nil, downCounter_cons, downCounter_nil, h1]
          · simp only [h1, if_false, Eff.visited_bind, Eff.forget_bind, hs,
              funcall_succ_visited, List.nil_append]
            simp [visited_mk_yield, visited_mk_nil, downCounter_cons, downCounter_nil, h1]
        | outOfFuel =>
          by_cases h1 : c - 1 = 0
          · simp only [h1, if_true, Eff.visited_bind, Eff.forget_bind, hs,
              funcall_succ_visited, List.nil_append]
            simp [visited_mk_yield, visited_mk_nil, downCounter_cons, downCounter_nil, h1]
          · simp only [h1, if_false, Eff.visited_bind, Eff.forget_bind, hs,
              funcall_succ_visited, List.nil_append]
            simp [visited_mk_yield, visited_mk_nil, downCounter_cons, downCounter_nil, h1]
        | ret v2 =>
          by_cases h1 : c - 1 = 0
          · obtain ⟨ihv, iho⟩ := ih v2 n hn (le_refl n)
            simp only [h1, if_true, Eff.visited_bind, Eff.forget_bind, hs,
              funcall_succ_visited, List.nil_append, ihv, iho]
            simp [visited_mk_yield, visited_mk_nil, downCounter_cons, downCounter_nil, h1]
          · obtain ⟨ihv, iho⟩ := ih v2 (c - 1) (by omega) (by omega)
            simp only [h1, if_false, Eff.visited_bind, Eff.forget_bind, hs,
              funcall_succ_visited, List.nil_append, ihv, iho]
            simp [visited_mk_yield, visited_mk_nil, downCounter_cons, downCounter_nil, h1]


theorem step_vs_each_excl (H : Host) (n : Nat) (hn : 0 < n) (hmax : (n : Int) ≤ LONG_MAX)
    (e : Value) :
    ∀ (fuel : Nat) (v : Value) (c : Nat), 0 < c → c ≤ n →
      (range_each_func_excl H step_i fuel v e ((c : Int), (n : Int))).visited
        = downCounter n c (range_each_func_excl H each_i fuel v e ()).visited ∧
      (range_each_func_excl H step_i fuel v e ((c : Int), (n : Int))).out.forget
        = (range_each_func_excl H each_i fuel v e ()).out.forget := by
  intro fuel
  induction fuel with
  | zero => intro v c _ _; exact ⟨rfl, rfl⟩
  | succ f ih =>
    intro v c hc hcn
    simp only [range_each_func_excl, Eff.bind_eq, Eff.pure_eq, Eff.pure_bind, each_i_eq,
      step_i_eq v c n hc hcn hmax]
    simp only [Eff.visited_bind, Eff.forget_bind, r_lt_visited, List.nil_append]
    cases hlt : (r_lt H v e).out with
    | raised x => exact ⟨rfl, rfl⟩
    | outOfFuel => exact ⟨rfl, rfl⟩
    | ret cv =>
      simp only []
      by_cases hr : c_true cv = true
      swap
      · simp only [hr, Bool.false_eq_true, if_false]
        exact ⟨rfl, rfl⟩
      simp only [hr, if_true]
      cases hs : (funcall_succ H v).out with
      | raised x =>
        by_cases h1 : c - 1 = 0
        · simp only [h1, if_true, Eff.visited_bind, Eff.forget_bind, hs,
            funcall_succ_visited, List.nil_append]
          simp [visited_mk_yield, visited_mk_nil, downCounter_cons, downCounter_nil, h1]
        · simp only [h1, if_false, Eff.visited_bind, Eff.forget_bind, hs,
            funcall_succ_visited, List.nil_append]
          simp [visited_mk_yield, visited_mk_nil, downCounter_cons, downCounter_nil, h1]
      | outOfFuel =>
        by_cases h1 : c - 1 = 0
        · simp only [h1, if_true, Eff.visited_bind, Eff.forget_bind, hs,
            funcall_succ_visited, List.nil_append]
          simp [visited_mk_yield, visited_mk_nil, downCounter_cons, downCounter_nil, h1]
        · simp only [h1, if_false, Eff.visited_bind, Eff.forget_bind, hs,
            funcall_succ_visited, List.nil_append]
          simp [visited_mk_yield, visited_mk_nil, downCounter_cons, downCounter_nil, h1]
      | ret v2 =>
        by_cases h1 : c - 1 = 0
        · obtain ⟨ihv, iho⟩ := ih v2 n hn (le_refl n)
          simp only [h1, if_true, Eff.visited_bind, Eff.forget_bind, hs,
            funcall_succ_visited, List.nil_append, ihv, iho]
          simp [visited_mk_yield, visited_mk_nil, downCounter_cons, downCounter_nil, h1]
        · obtain ⟨ihv, iho⟩ := ih v2 (c - 1) (by omega) (by omega)
          simp only [h1, if_false, Eff.visited_bind, Eff.forget_bind, hs,
            funcall_succ_visited, List.nil_append, ihv, iho]
          simp [visited_mk_yield, visited_mk_nil, downCounter_cons, downCounter_nil, h1]

theorem step_vs_each_func (H : Host) (n : Nat) (hn : 0 < n) (hmax : (n : Int) ≤ LONG_MAX)
    (fuel : Nat) (range : RObject) (v e : Value) :
    (range_each_func H fuel range step_i v e ((1 : Int), (n : Int))).visited
      = downCounter n 1 (range_each_func H fuel range each_i v e ()).visited ∧
    (range_each_func H fuel range step_i v e ((1 : Int), (n : Int))).out.forget
      = (range_each_func H fuel range each_i v e ()).out.forget := by
  unfold range_each_func
  split
  · exact step_vs_each_excl H n hn hmax e fuel v 1 (by omega) (by omega)
  · exact step_vs_each_incl H n hn hmax e fuel v 1 (by omega) (by omega)

theorem downCounter_enumFrom {α : Type} (n : Nat) (hn : 0 < n) :
    ∀ (l : List α) (k c : Nat), 0 < c → c ≤ n → n ∣ k + (c - 1) →
      downCounter n c l = ((l.enumFrom k).filter (fun p => p.1 % n = 0)).map Prod.snd := by
  intro l
  induction l with
  | nil => intro k c _ _ _; simp [downCounter_nil]
  | cons x xs ih =>
    intro k c hc hcn hdvd
    rw [downCounter_cons, List.enumFrom_cons]
    by_cases h1 : c - 1 = 0
    · have hk : n ∣ k := by simpa [h1] using hdvd
      have hk0 : k % n = 0 := Nat.mod_eq_zero_of_dvd hk
      have hnext : n ∣ (k + 1) + (n - 1) := by
        have : (k + 1) + (n - 1) = k + n := by omega
        rw [this]
        exact Nat.dvd_add hk (Nat.dvd_refl n)
      simp [h1, hk0, List.filter_cons, ih (k + 1) n hn (le_refl n) hnext]
    · have hk0 : ¬ k % n = 0 := by
        intro hk
        have hk' : n ∣ k := Nat.dvd_of_mod_eq_zero hk
        have hc' : n ∣ c - 1 := (Nat.dvd_add_right hk').1 hdvd
        have := Nat.eq_zero_of_dvd_of_lt hc' (by omega)
        exact h1 this
      have hnext : n ∣ (k + 1) + (c - 1 - 1) := by
        have : (k + 1) + (c - 1 - 1) = k + (c - 1) := by omega
        rw [this]; exact hdvd
      simp [h1, hk0, List.filter_cons, ih (k + 1) (c - 1) (by omega) (by omega) hnext]

theorem downCounter_one (α : Type) (n : Nat) (hn : 0 < n) (l : List α) :
    downCounter n 1 l = everyNth n l := by
  unfold everyNth List.enum
  exact downCounter_enumFrom n hn l 0 1 (by omega) hn (by simp)

theorem not_numeric_not_fixnum (H : Host) (b : Value) (h : kind_of_Numeric H b = false) :
    FIXNUM_P b = false := by
  cases b <;> simp_all [kind_of_Numeric, FIXNUM_P]

theorem range_step_generic_eq (H : Host) (fuel : Nat) (range : RObject) (step : Value) (n : Int)
    (hstr : rb_check_string_type H (rb_ivar_get range.beg) = none)
    (hnum : kind_of_Numeric H (rb_ivar_get range.beg) = false)
    (hconv : NUM2LONG H step = Eff.pure n) (hn : 0 < n) :
    range_step H fuel true [step] range
      = if rb_respond_to_succ H (rb_ivar_get range.beg) = true then
          (range_each_func H fuel range step_i (rb_ivar_get range.beg)
            (rb_ivar_get range.end_) (1, n)).bind (fun _ => Eff.pure .self)
        else Eff.raise (.rb_eTypeError
          ("can't iterate from " ++ H.classname (rb_ivar_get range.beg))) := by
  have hn0 : ¬ n = 0 := by omega
  have hn1 : ¬ n < 0 := by omega
  have hfix := not_numeric_not_fixnum H _ hnum
  simp only [range_step, rb_scan_args_01, Eff.bind_eq, Eff.pure_eq, Eff.pure_bind, hconv,
    hn0, hn1, hfix, hstr, hnum, Bool.not_true, if_false, Bool.false_and, one_ne_zero,
    Bool.false_eq_true]
  cases rb_respond_to_succ H (rb_ivar_get range.beg) <;> simp

theorem range_each_generic_eq (H : Host) (fuel : Nat) (range : RObject)
    (hstr : rb_check_string_type H (rb_ivar_get range.beg) = none)
    (hnum : kind_of_Numeric H (rb_ivar_get range.beg) = false) :
    range_each H fuel true range
      = if rb_respond_to_succ H (rb_ivar_get range.beg) = true then
          (range_each_func H fuel range each_i (rb_ivar_get range.beg)
            (rb_ivar_get range.end_) ()).bind (fun _ => Eff.pure .self)
        else Eff.raise (.rb_eTypeError
          ("can't iterate from " ++ H.classname (rb_ivar_get range.beg))) := by
  have hfix := not_numeric_not_fixnum H _ hnum
  simp only [range_each, Eff.bind_eq, Eff.pure_eq, Eff.pure_bind,
     hfix, Bool.not_true, if_false, Bool.false_and, Bool.false_eq_true]
  have hmatch : ∀ s, rb_ivar_get range.beg ≠ .str s := by
    intro s hs
    rw [hs] at hstr
    simp [rb_check_string_type] at hstr
  cases hr : rb_respond_to_succ H (rb_ivar_get range.beg)
  · simp
  · simp only [Bool.not_true, Bool.false_eq_true, if_false, if_true]

theorem bind_const_visited {α β : Type} (m : Eff α) (x : β) :
    (m.bind (fun _ => Eff.pure x)).visited = m.visited := by
  rw [Eff.visited_bind]
  cases m.out <;> simp [Eff.pure, Eff.visited]

theorem bind_const_out {α β γ : Type} (m1 : Eff α) (m2 : Eff β) (x : γ)
    (h : m1.out.forget = m2.out.forget) :
    (m1.bind (fun _ => Eff.pure x)).out = (m2.bind (fun _ => Eff.pure x)).out := by
  unfold Eff.bind
  cases h1 : m1.out <;> cases h2 : m2.out <;> simp_all [Outcome.forget, Eff.pure]

/-- On the generic successor path, `step(n)` visits what a down-counter started at 1 and reset
to `n` lets through of the values that `each` visits over the same range, and both end the same
way, for every amount of fuel. -/
theorem range_step_vs_each (H : Host) (range : RObject) (step : Value) (n : Int)
    (hstr : rb_check_string_type H (rb_ivar_get range.beg) = none)
    (hnum : kind_of_Numeric H (rb_ivar_get range.beg) = false)
    (hconv : NUM2LONG H step = Eff.pure n) (hn : 0 < n) (fuel : Nat) :
    (range_step H fuel true [step] range).visited
      = downCounter n.toNat 1 (range_each H fuel true range).visited ∧
    (range_step H fuel true [step] range).out = (range_each H fuel true range).out := by
  rw [range_step_generic_eq H fuel range step n hstr hnum hconv hn,
    range_each_generic_eq H fuel range hstr hnum]
  have hmax := (NUM2LONG_long H step n hconv).2
  have hcast : ((n.toNat : Nat) : Int) = n := Int.toNat_of_nonneg (by omega)
  by_cases hr : rb_respond_to_succ H (rb_ivar_get range.beg) = true
  · simp only [hr, if_true, bind_const_visited]
    obtain ⟨hv, ho⟩ := step_vs_each_func H n.toNat (by omega) (by rw [hcast]; exact hmax) fuel
      range (rb_ivar_get range.beg) (rb_ivar_get range.end_)
    rw [hcast] at hv ho
    exact ⟨hv, bind_const_out _ _ _ ho⟩
  · simp only [hr, if_false]
    exact ⟨by simp [Eff.raise, Eff.visited, downCounter_nil], rfl⟩

theorem funcall_succ_shape (H : Host) (v w : Value) (h : (funcall_succ H v).out = .ret w) :
    funcall_succ H v = ⟨[.succ v], .ret w⟩ := by
  unfold funcall_succ at h ⊢
  split at h
  · simp only [send] at h ⊢
    simp only [Outcome.ret.injEq] at h
    rw [h]
  · cases hs : H.succ v with
    | ok x =>
      rw [hs] at h
      simp only [send, Outcome.ret.injEq] at h
      simp [send, h]
    | error x =>
      rw [hs] at h
      simp [send] at h

theorem r_le_of_compareResult (H : Host) (a b : Value) (r : ComparisonResult)
    (h : compareResult H a b = some r) :
    r_le H a b = ⟨[.cmp a b], .ret (if r = .LESS then .Qtrue
      else if r = .EQUAL then .int 0 else .Qfalse)⟩ := by
  unfold compareResult at h
  rcases funcall_cmp_shape H a b with ⟨v, hv⟩ | ⟨x, hx⟩
  · rw [hv] at h
    cases v with
    | Qnil =>
      simp only [Option.some.injEq] at h
      subst h
      simp [r_le, hv, Eff.bind, NIL_P, Eff.pure]
    | int x =>
      simp only [Option.some.injEq] at h
      subst h
      by_cases h1 : x < 0
      · have h2 : ¬ 0 < x := by omega
        have h3 : ¬ x = 0 := by omega
        simp [r_le, hv, Eff.bind, NIL_P, Eff.pure, rb_cmpint, h1, h2, h3, LONG2NUM]
      · by_cases h3 : x = 0
        · subst h3
          simp [r_le, hv, Eff.bind, NIL_P, Eff.pure, rb_cmpint, LONG2NUM]
        · have h2 : 0 < x := by omega
          simp [r_le, hv, Eff.bind, NIL_P, Eff.pure, rb_cmpint, h1, h2, h3, LONG2NUM]
    | _ => simp at h
  · rw [hx] at h
    simp at h

theorem r_lt_of_compareResult (H : Host) (a b : Value) (r : ComparisonResult)
    (h : compareResult H a b = some r) :
    r_lt H a b = ⟨[.cmp a b], .ret (if r = .LESS then .Qtrue else .Qfalse)⟩ := by
  unfold compareResult at h
  rcases funcall_cmp_shape H a b with ⟨v, hv⟩ | ⟨x, hx⟩
  · rw [hv] at h
    cases v with
    | Qnil =>
      simp only [Option.some.injEq] at h
      subst h
      simp [r_lt, hv, Eff.bind, NIL_P, Eff.pure]
    | int x =>
      simp only [Option.some.injEq] at h
      subst h
      by_cases h1 : x < 0
      · have h2 : ¬ 0 < x := by omega
        simp [r_lt, hv, Eff.bind, NIL_P, Eff.pure, rb_cmpint, h1, h2]
      · by_cases h3 : x = 0
        · subst h3
          simp [r_lt, hv, Eff.bind, NIL_P, Eff.pure, rb_cmpint]
        · have h2 : 0 < x := by omega
          simp [r_lt, hv, Eff.bind, NIL_P, Eff.pure, rb_cmpint, h1, h2, h3]
    | _ => simp at h
  · rw [hx] at h
    simp at h

theorem orbitLog_succ (orbit : Nat → Value) (e : Value) (i m : Nat) :
    orbitLog orbit e i (m + 1)
      = [.cmp (orbit i) e, .yield (orbit i), .succ (orbit i)] ++ orbitLog orbit e (i + 1) m := by
  simp only [orbitLog, List.range_succ_eq_map, List.flatMap_cons, List.flatMap_map, Nat.add_zero]
  congr 1
  apply List.flatMap_congr
  intro j _
  simp [Nat.add_assoc, Nat.add_comm 1 j, Function.comp]

theorem Eff.mk_ret_bind {α β : Type} (l : List Event) (a : α) (f : α → Eff β) :
    Eff.bind ⟨l, .ret a⟩ f = ⟨l ++ (f a).log, (f a).out⟩ := by
  simp [Eff.bind]

theorem each_excl_orbit (H : Host) (e : Value) (orbit : Nat → Value) (k : Nat)
    (r : ComparisonResult)
    (hsucc : ∀ j, j < k → (funcall_succ H (orbit j)).out = .ret (orbit (j + 1)))
    (hless : ∀ j, j < k → compareResult H (orbit j) e = some .LESS)
    (hlast : compareResult H (orbit k) e = some r) (hr : r ≠ .LESS) :
    ∀ m i fuel, i + m = k → m < fuel →
      range_each_func_excl H each_i fuel (orbit i) e ()
        = ⟨orbitLog orbit e i m ++ [.cmp (orbit k) e], .ret ()⟩ := by
  intro m
  induction m with
  | zero =>
    intro i fuel hi hf
    obtain ⟨f, rfl⟩ : ∃ f, fuel = f + 1 := ⟨fuel - 1, by omega⟩
    have hik : i = k := by omega
    subst hik
    simp [range_each_func_excl, Eff.bind_eq, r_lt_of_compareResult H _ _ _ hlast, hr,
      Eff.mk_ret_bind, c_true, orbitLog, Eff.pure_eq, Eff.pure]
  | succ m ih =>
    intro i fuel hi hf
    obtain ⟨f, rfl⟩ : ∃ f, fuel = f + 1 := ⟨fuel - 1, by omega⟩
    have hik : i < k := by omega
    have h1 := r_lt_of_compareResult H _ _ _ (hless i hik)
    have h2 := funcall_succ_shape H _ _ (hsucc i hik)
    have h3 := ih (i + 1) f (by omega) (by omega)
    simp [range_each_func_excl, Eff.bind_eq, h1, h2, h3, Eff.mk_ret_bind, c_true, each_i,
      rb_yield, orbitLog_succ, Eff.pure_eq, Eff.pure]

theorem each_incl_orbit (H : Host) (e : Value) (orbit : Nat → Value) (k : Nat)
    (r : ComparisonResult)
    (hsucc : ∀ j, j < k → (funcall_succ H (orbit j)).out = .ret (orbit (j + 1)))
    (hless : ∀ j, j < k → compareResult H (orbit j) e = some .LESS)
    (hlast : compareResult H (orbit k) e = some r) (hr : r ≠ .LESS) :
    ∀ m i fuel, i + m = k → m < fuel →
      range_each_func_incl H each_i fuel (orbit i) e ()
        = ⟨orbitLog orbit e i m ++ [.cmp (orbit k) e]
            ++ (if r = .EQUAL then [.yield (orbit k)] else []), .ret ()⟩ := by
  intro m
  induction m with
  | zero =>
    intro i fuel hi hf
    obtain ⟨f, rfl⟩ : ∃ f, fuel = f + 1 := ⟨fuel - 1, by omega⟩
    have hik : i = k := by omega
    subst hik
    by_cases he : r = .EQUAL
    · simp [range_each_func_incl, Eff.bind_eq, r_le_of_compareResult H _ _ _ hlast, he,
        Eff.mk_ret_bind, RTEST, orbitLog, Eff.pure_eq, Eff.pure, each_i, rb_yield, LONG2NUM]
    · simp [range_each_func_incl, Eff.bind_eq, r_le_of_compareResult H _ _ _ hlast, he, hr,
        Eff.mk_ret_bind, RTEST, orbitLog, Eff.pure_eq, Eff.pure, each_i, rb_yield, LONG2NUM]
  | succ m ih =>
    intro i fuel hi hf
    obtain ⟨f, rfl⟩ : ∃ f, fuel = f + 1 := ⟨fuel - 1, by omega⟩
    have hik : i < k := by omega
    have h1 := r_le_of_compareResult H _ _ _ (hless i hik)
    have h2 := funcall_succ_shape H _ _ (hsucc i hik)
    have h3 := ih (i + 1) f (by omega) (by omega)
    simp [range_each_func_incl, Eff.bind_eq, h1, h2, h3, Eff.mk_ret_bind, RTEST, each_i,
      rb_yield, orbitLog_succ, Eff.pure_eq, Eff.pure, LONG2NUM]

theorem range_each_orbit (H : Host) (range : RObject) (b e : Value)
    (hb : rb_ivar_get range.beg = b) (he : rb_ivar_get range.end_ = e)
    (hfix : (FIXNUM_P b && FIXNUM_P e) = false) (hstr : ∀ s, b ≠ .str s)
    (hresp : rb_respond_to_succ H b = true)
    (orbit : Nat → Value) (k : Nat) (r : ComparisonResult) (h0 : b = orbit 0)
    (hsucc : ∀ j, j < k → (funcall_succ H (orbit j)).out = .ret (orbit (j + 1)))
    (hless : ∀ j, j < k → compareResult H (orbit j) e = some .LESS)
    (hlast : compareResult H (orbit k) e = some r) (hr : r ≠ .LESS)
    (fuel : Nat) (hfuel : k < fuel) :
    range_each H fuel true range
      = ⟨orbitLog orbit e 0 k ++ [.cmp (orbit k) e]
          ++ (if EXCL range = false ∧ r = .EQUAL then [.yield (orbit k)] else []),
         .ret .self⟩ := by
  subst hb
  subst he
  have hmatch : ∀ s, rb_ivar_get range.beg ≠ .str s := hstr
  simp only [range_each, Eff.bind_eq, Eff.pure_eq, Eff.pure_bind, hfix, hresp,
     Bool.not_true, if_false, Bool.false_and, Bool.false_eq_true, Bool.not_false]
  rw [h0] at hmatch ⊢
  simp only [range_each_func]
  cases hx : EXCL range
  · simp only [Bool.false_eq_true, if_false, true_and]
    rw [each_incl_orbit H _ orbit k r hsucc hless hlast hr k 0 fuel (by omega) hfuel]
    simp [Eff.mk_ret_bind, Eff.pure]
  · simp only [if_true, Bool.true_eq_false, false_and, if_false]
    rw [each_excl_orbit H _ orbit k r hsucc hless hlast hr k 0 fuel (by omega) hfuel]
    simp [Eff.mk_ret_bind, Eff.pure]

/-! ### The numeric branch of `step` -/

theorem truncQ_fraction (s : ℚ) (h0 : 0 < s) (h1 : s < 1) : truncQ s = 0 := by
  unfold truncQ
  rw [if_pos h0.le, Int.floor_eq_iff]
  constructor
  · simpa using h0.le
  · simpa using h1

theorem NUM2LONG_fraction (H : Host) (sv : Value) (s : ℚ) (hsv : numVal sv = some s)
    (h0 : 0 < s) (h1 : s < 1) : NUM2LONG H sv = Eff.pure 0 := by
  cases sv with
  | int i =>
    simp only [numVal, Option.some.injEq] at hsv
    subst hsv
    have hi0 : 0 < i := by exact_mod_cast h0
    have hi1 : i < 1 := by exact_mod_cast h1
    omega
  | float q =>
    simp only [numVal, Option.some.injEq] at hsv
    subst hsv
    unfold NUM2LONG
    simp only [truncQ_fraction q h0 h1]
    exact if_pos (by decide)
  | _ => simp [numVal] at hsv

theorem rb_equal_zero_of_pos (H : Host) (sv : Value) (s : ℚ) (hsv : numVal sv = some s)
    (hs : 0 < s) : rb_equal H sv (LONG2NUM 0) = false := by
  cases sv with
  | int i =>
    simp only [numVal, Option.some.injEq] at hsv
    subst hsv
    have hi0 : i ≠ 0 := by
      intro h
      subst h
      simp at hs
    simp [rb_equal, LONG2NUM, hi0]
  | float q =>
    simp only [numVal, Option.some.injEq] at hsv
    subst hsv
    simp [rb_equal, LONG2NUM, hs.ne']
  | _ => simp [numVal] at hsv

theorem range_step_numeric_eq (H : Host) (fuel : Nat) (range : RObject) (b : ℚ) (ev sv : Value)
    (s : ℚ) (n : Int)
    (hb : range.beg = some (.float b)) (he : range.end_ = some ev)
    (hsv : numVal sv = some s) (hs : 0 < s)
    (hconv : NUM2LONG H sv = Eff.pure n) (hn : 0 < n) :
    range_step H fuel true [sv] range
      = (range_step_numeric_loop H (if EXCL range then "<" else "<=") ev sv fuel
          (.float b)).bind (fun _ => Eff.pure .self) := by
  have hn0 : ¬ n = 0 := by omega
  have hn1 : ¬ n < 0 := by omega
  have heq := rb_equal_zero_of_pos H sv s hsv hs
  simp only [range_step, rb_scan_args_01, Eff.bind_eq, Eff.pure_eq, Eff.pure_bind, hconv,
    hn0, hn1, hb, he, rb_ivar_get, Option.getD, FIXNUM_P, rb_check_string_type, kind_of_Numeric,
    heq, Bool.not_true, if_false, if_true, Bool.false_and, one_ne_zero, Bool.false_eq_true]

theorem NUM2LONG_three_halves (H : Host) : NUM2LONG H (.float (3 / 2)) = Eff.pure 1 := by
  have hf : truncQ (3 / 2) = 1 := by
    unfold truncQ
    rw [if_pos (by norm_num)]
    rw [Int.floor_eq_iff]; norm_num
  unfold NUM2LONG
  simp only [hf]
  decide

/-! ### `step` with the step size 1 -/

theorem step_loop_one_eq_each (lim : Int) :
    ∀ (fuel : Nat) (i : Int),
      range_step_fixnum_loop 1 lim fuel i = range_each_fixnum_loop lim fuel i := by
  intro fuel
  induction fuel with
  | zero => intro i; rfl
  | succ f ih =>
    intro i
    simp only [range_step_fixnum_loop, range_each_fixnum_loop, ih]

theorem range_step_default (H : Host) (fuel : Nat) (range : RObject) :
    range_step H fuel true [] range = range_step H fuel true [.int 1] range := by
  simp [range_step, rb_scan_args_01, LONG2NUM]

theorem downCounter_one_one {α : Type} (l : List α) : downCounter 1 1 l = l := by
  induction l with
  | nil => rfl
  | cons x xs ih => simp [downCounter, ih]

theorem range_step_one_fixnum (H : Host) (range : RObject) (step : Value) (b e : Int)
    (hconv : NUM2LONG H step = Eff.pure 1)
    (hb : range.beg = some (.int b)) (he : range.end_ = some (.int e))
    (hfb : FIXABLE b = true) (hfe : FIXABLE e = true) (fuel : Nat) :
    range_step H fuel true [step] range = range_each H fuel true range := by
  simp [range_step, range_each, rb_scan_args_01, hconv, hb, he, rb_ivar_get, FIXNUM_P, hfb, hfe,
    rb_respond_to_succ, step_loop_one_eq_each]

theorem NUM2LONG_one (H : Host) : NUM2LONG H (.int 1) = Eff.pure 1 := by
  unfold NUM2LONG
  exact if_pos (by decide)

/-! ## The claims -/

/-- C1: for machine integers `b` and `e`, `each` with a block over the inclusive range `b..e`
hands the block exactly `b, b + 1, ..., e` in ascending order, and over the exclusive range
`b...e` exactly `b, b + 1, ..., e - 1`: the values `b + k` for `k = 0, 1, ...` below the count
`cnt`, where `k < cnt` exactly when `b + k <= e` (`b + k < e` when exclusive), so nothing when
`b > e` (`b >= e`). The call causes no other event and returns the range, for every amount of
fuel from `fuel0` on. -/
theorem range_each_fixnum_visits (H : Host) (range : RObject) (b e : Int)
    (hb : range.beg = some (.int b)) (he : range.end_ = some (.int e))
    (hfb : FIXABLE b = true) (hfe : FIXABLE e = true) :
    ∃ cnt fuel0 : Nat,
      (∀ k : Nat, k < cnt ↔ (if EXCL range then b + k < e else b + k ≤ e)) ∧
      ∀ fuel, fuel0 ≤ fuel →
        range_each H fuel true range
          = ⟨(List.range cnt).map (fun (k : Nat) => Event.yield (.int (b + k))), .ret .self⟩ := by
  rw [FIXABLE_iff] at hfb hfe
  have hmin : LONG_MIN ≤ FIXNUM_MIN := by decide
  have hmax : FIXNUM_MAX + 1 ≤ LONG_MAX := by decide
  set lim : Int := if EXCL range then e else e + 1 with hlim
  have hl : lim ≤ LONG_MAX := by
    rw [hlim]; split <;> omega
  refine ⟨(lim - b).toNat, (lim - b).toNat + 1, ?_, ?_⟩
  · intro k
    rw [hlim]
    split <;> omega
  · intro fuel hf
    have hw : wrapLong (e + 1) = e + 1 := wrapLong_eq (by omega) (by omega)
    have hloop := each_loop_spec lim hl _ b fuel (by omega) rfl (by omega)
    have hfb2 : FIXABLE b = true := (FIXABLE_iff b).2 hfb
    have hfe2 : FIXABLE e = true := (FIXABLE_iff e).2 hfe
    simp only [range_each, hb, he, rb_ivar_get, Option.getD, rb_respond_to_succ, FIXNUM_P,
      hfb2, hfe2, hw]
    by_cases hx : EXCL range
    · simp [hx, hlim] at hloop ⊢
      simp [hloop, Eff.bind, Eff.pure, stepValues]
    · simp [hx, hlim] at hloop ⊢
      simp [hloop, Eff.bind, Eff.pure, stepValues]

/-- Witness of C1 on the range `1..5`. -/
theorem range_each_fixnum_visits_witness :
    ∃ cnt fuel0 : Nat,
      (∀ k : Nat, k < cnt ↔
        (if EXCL (intRange 1 5 false) then (1 : Int) + k < 5 else (1 : Int) + k ≤ 5)) ∧
      ∀ fuel, fuel0 ≤ fuel →
        range_each plainHost fuel true (intRange 1 5 false)
          = ⟨(List.range cnt).map (fun (k : Nat) => Event.yield (.int (1 + k))), .ret .self⟩ :=
  range_each_fixnum_visits plainHost (intRange 1 5 false) 1 5 rfl rfl (by decide) (by decide)

/-- C2: for machine integers `b` and `e` and an Integer step `n > 0`, in exact integer arithmetic
(`n` is a C long and `e + n` does not exceed `LONG_MAX`, so no addition `i += n` of the loop
overflows), `step(n)` with a block hands the block exactly the values `b + k * n`,
`k = 0, 1, 2, ...`, that are `<= e` (`< e` when the range is exclusive), in ascending order,
causes no other event and returns the range, for every amount of fuel from `fuel0` on. -/
theorem range_step_fixnum_visits (H : Host) (range : RObject) (b e n : Int)
    (hb : range.beg = some (.int b)) (he : range.end_ = some (.int e))
    (hfb : FIXABLE b = true) (hfe : FIXABLE e = true)
    (hn : 0 < n) (hlong : n ≤ LONG_MAX) (hexact : e + n ≤ LONG_MAX) :
    ∃ cnt fuel0 : Nat,
      (∀ k : Nat, k < cnt ↔ (if EXCL range then b + k * n < e else b + k * n ≤ e)) ∧
      ∀ fuel, fuel0 ≤ fuel →
        range_step H fuel true [.int n] range
          = ⟨(List.range cnt).map (fun (k : Nat) => Event.yield (.int (b + k * n))),
              .ret .self⟩ := by
  have hfb2 := hfb
  have hfe2 := hfe
  rw [FIXABLE_iff] at hfb hfe
  have hmin : LONG_MIN ≤ FIXNUM_MIN := by decide
  have hmax : FIXNUM_MAX + 1 ≤ LONG_MAX := by decide
  have hlm : LONG_MIN ≤ 0 := by decide
  have hw : wrapLong (e + 1) = e + 1 := wrapLong_eq (by omega) (by omega)
  set end_ : Int := if EXCL range then e else e + 1 with hend
  have hov : end_ - 1 + n ≤ LONG_MAX := by
    rw [hend]; split <;> omega
  obtain ⟨cnt, -, hiff, hrun⟩ := step_loop_spec n end_ hn hov (end_ - b).toNat b (by omega)
    (le_refl _)
  refine ⟨cnt, cnt + 1, ?_, ?_⟩
  · intro k
    rw [hiff k, hend]
    split <;> omega
  · intro fuel hf
    have hloop := hrun fuel (by omega)
    have hnl : LONG_MIN ≤ n ∧ n ≤ LONG_MAX := ⟨by omega, hlong⟩
    have hn0 : ¬ n = 0 := by omega
    have hn1 : ¬ n < 0 := by omega
    simp only [range_step, rb_scan_args_01, hb, he, rb_ivar_get, Option.getD, FIXNUM_P, hfb2, hfe2, hw,
      NUM2LONG]
    by_cases hx : EXCL range
    · simp [hx, hend] at hloop ⊢
      simp [hloop, Eff.bind, Eff.pure, stepValues, hnl, hn0, hn1]
    · simp [hx, hend] at hloop ⊢
      simp [hloop, Eff.bind, Eff.pure, stepValues, hnl, hn0, hn1]

/-- Witness of C2: `step(3)` over `1..10`. -/
theorem range_step_fixnum_visits_witness :
    ∃ cnt fuel0 : Nat,
      (∀ k : Nat, k < cnt ↔
        (if EXCL (intRange 1 10 false) then (1 : Int) + k * 3 < 10 else (1 : Int) + k * 3 ≤ 10)) ∧
      ∀ fuel, fuel0 ≤ fuel →
        range_step plainHost fuel true [.int 3] (intRange 1 10 false)
          = ⟨(List.range cnt).map (fun (k : Nat) => Event.yield (.int (1 + k * 3))),
              .ret .self⟩ :=
  range_step_fixnum_visits plainHost (intRange 1 10 false) 1 10 3 rfl rfl (by decide) (by decide)
    (by decide) (by decide) (by decide)

/-- C3: on a range with machine-integer bounds `b` and `e`, `include?` of an Integer `v` with
`b <= v` and `v <= e` (`v < e` when the range is exclusive) returns `true` as soon as it has fuel
for one pass; and whenever `include?` returns a true value, `v` satisfies those bounds. -/
theorem range_include_fixnum (H : Host) (range : RObject) (b e v : Int)
    (hb : range.beg = some (.int b)) (he : range.end_ = some (.int e))
    (hfb : FIXABLE b = true) (_hfe : FIXABLE e = true) :
    (inBounds b e (EXCL range) v →
      ∀ fuel, 0 < fuel → (range_include H fuel range (.int v)).out = .ret .Qtrue) ∧
    (∀ fuel w, (range_include H fuel range (.int v)).out = .ret w → RTEST w = true →
      inBounds b e (EXCL range) v) := by
  have hunf : ∀ fuel, range_include H fuel range (.int v)
      = range_include_numeric_range H range (.int b) (.int e) (.int v) fuel := by
    intro fuel
    simp [range_include, hb, he, rb_ivar_get, FIXNUM_P, hfb]
  constructor
  · intro hin fuel hf
    obtain ⟨f, rfl⟩ : ∃ f, fuel = f + 1 := ⟨fuel - 1, by omega⟩
    rw [hunf, include_loop_inside H range b e v hin]
  · intro fuel w hw _
    by_contra hout
    rw [hunf, include_loop_outside H range b e v hout] at hw
    cases hw

/-- Witness of C3: 5 is in `1..10`, and one pass finds it. -/
theorem range_include_fixnum_witness :
    (range_include plainHost 1 (intRange 1 10 false) (.int 5)).out = .ret .Qtrue ∧
    (∀ fuel w, (range_include plainHost fuel (intRange 1 10 false) (.int 5)).out = .ret w →
      RTEST w = true → inBounds 1 10 (EXCL (intRange 1 10 false)) 5) :=
  ⟨(range_include_fixnum plainHost (intRange 1 10 false) 1 10 5 rfl rfl (by decide)
      (by decide)).1 (by decide) 1 (by decide),
   (range_include_fixnum plainHost (intRange 1 10 false) 1 10 5 rfl rfl (by decide)
      (by decide)).2⟩

/-- C4 (the code diverges from the specification): on a range with machine-integer bounds `b` and `e`,
`include?` of an Integer `v` outside the range never returns: after the failed test the
conversion `rb_check_to_integer(beg, "to_int")` of the Fixnum `beg` is not `nil`, so the
function jumps back to `numeric_range` and repeats the same test; whatever the fuel, the outcome
is `outOfFuel`, where the specification says that `false` is returned. -/
theorem range_include_outside_never_returns (H : Host) (range : RObject) (b e v : Int)
    (hb : range.beg = some (.int b)) (he : range.end_ = some (.int e))
    (hfb : FIXABLE b = true) (_hfe : FIXABLE e = true)
    (hout : v < b ∨ e < v ∨ (v = e ∧ EXCL range = true)) :
    ∀ fuel, (range_include H fuel range (.int v)).out = .outOfFuel := by
  intro fuel
  have hunf : range_include H fuel range (.int v)
      = range_include_numeric_range H range (.int b) (.int e) (.int v) fuel := by
    simp [range_include, hb, he, rb_ivar_get, FIXNUM_P, hfb]
  rw [hunf]
  apply include_loop_outside
  unfold inBounds
  rcases hout with h | h | ⟨h, hx⟩
  · intro hc; omega
  · intro hc
    obtain ⟨_, h2⟩ := hc
    split at h2 <;> omega
  · intro hc
    obtain ⟨_, h2⟩ := hc
    rw [hx] at h2
    simp at h2
    omega

/-- Witness of C4: `include?(10)` on `1...10`, the example of the specification, has not
returned after a thousand passes through `numeric_range`. -/
theorem range_include_outside_never_returns_witness :
    (range_include plainHost 1000 (intRange 1 10 true) (.int 10)).out = .outOfFuel :=
  range_include_outside_never_returns plainHost (intRange 1 10 true) 1 10 10 rfl rfl
    (by decide) (by decide) (by decide) 1000

/-- C5 (amended): for a genuine range with Integer bounds `b` and `e` and a container length
`0 <= len <= LONG_MAX`, whenever `rb_range_beg_len` succeeds (returns `Qtrue`) it has stored
`start` and `count` as the specification states them (`specSlice`: `start = b + len` if `b < 0`
else `b`; `count = max(0, e2 - start)` with `e1 = min(e, len)` in the modes 0 and 2, `e1 = e`
otherwise, and `e2 = (e1 + len if e1 < 0 else e1) + (0 if exclusive else 1)`), and both are
`>= 0`, provided the end point `e2` and the difference `e2 - start` fit a C long. -/
theorem rb_range_beg_len_slice (H : Host) (range : RObject) (b e len err : Int)
    (hb : range.beg = some (.int b)) (he : range.end_ = some (.int e))
    (hlen0 : 0 ≤ len) (hlen1 : len ≤ LONG_MAX)
    (hend : specEnd e len (EXCL range) err ≤ LONG_MAX)
    (hdiff : LONG_MIN ≤ specEnd e len (EXCL range) err - (specSlice b e len (EXCL range) err).1)
    (res : BegLen)
    (hres : (rb_range_beg_len H (.range range) len err).out = .ret res)
    (hok : res.ret = .Qtrue) :
    res.begp = some (specSlice b e len (EXCL range) err).1 ∧
    res.lenp = some (specSlice b e len (EXCL range) err).2 ∧
    0 ≤ (specSlice b e len (EXCL range) err).1 ∧
    0 ≤ (specSlice b e len (EXCL range) err).2 := by
  simp only [rb_range_beg_len, hb, he, rb_ivar_get, Option.getD] at hres
  by_cases hbl : LONG_MIN ≤ b ∧ b ≤ LONG_MAX
  swap
  · simp [beg_len_core, NUM2LONG, hbl, Eff.bind, Eff.raise] at hres
  by_cases hel : LONG_MIN ≤ e ∧ e ≤ LONG_MAX
  swap
  · simp [beg_len_core, NUM2LONG, hbl, hel, Eff.bind, Eff.raise, Eff.pure] at hres
  rw [beg_len_core_of_longs H _ _ b e _ _ _ (by simp [NUM2LONG, hbl]) (by simp [NUM2LONG, hel])]
    at hres
  cases hlongs : beg_len_longs b e (EXCL range) len err with
  | none =>
    rw [hlongs] at hres
    have := (out_of_range_ret H _ _ _ _ _ hres).1
    rw [this] at hok
    cases hok
  | some p =>
    obtain ⟨beg1, len2⟩ := p
    rw [hlongs] at hres
    simp only [Eff.pure, Outcome.ret.injEq] at hres
    obtain ⟨h1, h2, h3⟩ := beg_len_longs_exact b e len err (EXCL range) hlen0 hlen1 hbl.1 hbl.2
      hel.1 hel.2 hend hdiff beg1 len2 hlongs
    rw [← h1]
    subst hres
    exact ⟨rfl, rfl, h2, h3⟩

/-- Witness of C5: `-3..-1` against a container of length 5, in a raising mode, resolves to
start 2 and count 3. -/
theorem rb_range_beg_len_slice_witness :
    (rb_range_beg_len plainHost (.range (intRange (-3) (-1) false)) 5 1)
      = Eff.pure ⟨.Qtrue, some 2, some 3⟩ ∧
    ((⟨.Qtrue, some 2, some 3⟩ : BegLen).begp
        = some (specSlice (-3) (-1) 5 (EXCL (intRange (-3) (-1) false)) 1).1 ∧
      (⟨.Qtrue, some 2, some 3⟩ : BegLen).lenp
        = some (specSlice (-3) (-1) 5 (EXCL (intRange (-3) (-1) false)) 1).2 ∧
      0 ≤ (specSlice (-3) (-1) 5 (EXCL (intRange (-3) (-1) false)) 1).1 ∧
      0 ≤ (specSlice (-3) (-1) 5 (EXCL (intRange (-3) (-1) false)) 1).2) :=
  ⟨by decide,
   rb_range_beg_len_slice plainHost (intRange (-3) (-1) false) (-3) (-1) 5 1 rfl rfl
     (by decide) (by decide) (by decide) (by decide) ⟨.Qtrue, some 2, some 3⟩ (by decide) rfl⟩

/-- Counterexample to C5 as stated: for the range `5..-9223372036854775808` against a container
of length 3 in mode 1, `end - beg` underflows the C long and the stored count is `LONG_MAX`,
where the stated formula gives the count 0. -/
theorem rb_range_beg_len_overflow :
    (rb_range_beg_len plainHost (.range (intRange 5 (-(2 ^ 63)) false)) 3 1)
      = Eff.pure ⟨.Qtrue, some 5, some (2 ^ 63 - 1)⟩ ∧
    specSlice 5 (-(2 ^ 63)) 3 false 1 = (5, 0) := by
  decide

/-- C6 (amended): for a genuine range whose begin and end convert to the C longs `b` and `e`
(`NUM2LONG` returns), with `b < -len` for a container length `len >= 0`, `rb_range_beg_len`
yields no slice in any mode: it returns `nil` without raising and without storing anything when
`err = 0`, and fails with RangeError when `err` is not 0. And for such a range and any length
and mode, it raises only when `err` is not 0 and returns `nil` only when `err = 0`. -/
theorem rb_range_beg_len_out_of_range (H : Host) (range : RObject) (b e len err : Int)
    (hb : NUM2LONG H (rb_ivar_get range.beg) = Eff.pure b)
    (he : NUM2LONG H (rb_ivar_get range.end_) = Eff.pure e)
    (hlen0 : 0 ≤ len) (hlt : b < -len) :
    (∃ msg, rb_range_beg_len H (.range range) len err
      = if err = 0 then Eff.pure ⟨.Qnil, none, none⟩ else Eff.raise (.rb_eRangeError msg)) ∧
    (∀ (len2 err2 : Int),
      (∀ x, (rb_range_beg_len H (.range range) len2 err2).out = .raised x → err2 ≠ 0) ∧
      (∀ res, (rb_range_beg_len H (.range range) len2 err2).out = .ret res →
        res.ret = .Qnil → err2 = 0)) := by
  have hbl := NUM2LONG_long H _ b hb
  constructor
  · have hw : wrapLong (b + len) = b + len := wrapLong_eq (by omega) (by
      have : LONG_MAX = 2 ^ 63 - 1 := rfl
      omega)
    have hnone : beg_len_longs b e (EXCL range) len err = none := by
      have h1 : b < 0 := by omega
      have h2 : b + len < 0 := by omega
      simp [beg_len_longs, h1, hw, h2]
    simp only [rb_range_beg_len]
    rw [beg_len_core_of_longs H _ _ b e _ _ _ hb he, hnone]
    exact out_of_range_eq H _ _ _ _
  · intro len2 err2
    simp only [rb_range_beg_len]
    rw [beg_len_core_of_longs H _ _ b e _ _ _ hb he]
    cases beg_len_longs b e (EXCL range) len2 err2 with
    | none =>
      obtain ⟨msg, hmsg⟩ := out_of_range_eq H (rb_ivar_get range.beg) (rb_ivar_get range.end_)
        (EXCL range) err2
      simp only [hmsg]
      by_cases h0 : err2 = 0
      · simp [h0, Eff.pure]
      · simp [h0, Eff.raise]
    | some p =>
      simp [Eff.pure]

/-- Witness of C6: `-7..-1` against a container of length 5, mode 0. -/
theorem rb_range_beg_len_out_of_range_witness :
    (∃ msg, rb_range_beg_len plainHost (.range (intRange (-7) (-1) false)) 5 0
      = if (0 : Int) = 0 then Eff.pure ⟨.Qnil, none, none⟩
        else Eff.raise (.rb_eRangeError msg)) ∧
    (∀ (len2 err2 : Int),
      (∀ x, (rb_range_beg_len plainHost (.range (intRange (-7) (-1) false)) len2 err2).out
        = .raised x → err2 ≠ 0) ∧
      (∀ res, (rb_range_beg_len plainHost (.range (intRange (-7) (-1) false)) len2 err2).out
        = .ret res → res.ret = .Qnil → err2 = 0)) :=
  rb_range_beg_len_out_of_range plainHost (intRange (-7) (-1) false) (-7) (-1) 5 0
    (by decide) (by decide) (by decide) (by decide)

/-- Counterexample to C6 as stated: the range `-10..18446744073709551616` has an Integer begin
below `-5`, yet in mode 0 against a container of length 5 the call raises RangeError instead of
returning `nil`: the end is converted by `NUM2LONG` before the begin is examined. -/
theorem rb_range_beg_len_end_not_long :
    rb_range_beg_len plainHost (.range (intRange (-10) (2 ^ 64) false)) 5 0
      = Eff.raise (.rb_eRangeError "bignum too big to convert into `long'") := by
  decide

/-- C7: for every range, whatever its bounds, and every step size that `NUM2LONG` converts to
`n <= 0`, `step` with a block fails with ArgumentError, with the message "step can't be 0" when
`n = 0` and "step can't be negative" when `n < 0`; the failure comes with an empty event log,
so the block has not been called even once. -/
theorem range_step_rejects (H : Host) (fuel : Nat) (range : RObject) (step : Value) (n : Int)
    (hconv : NUM2LONG H step = Eff.pure n) (hn : n ≤ 0) :
    range_step H fuel true [step] range
      = Eff.raise (.rb_eArgError
          (if n < 0 then "step can't be negative" else "step can't be 0")) ∧
    (range_step H fuel true [step] range).visited = [] := by
  have key : range_step H fuel true [step] range
      = Eff.raise (.rb_eArgError
          (if n < 0 then "step can't be negative" else "step can't be 0")) := by
    by_cases hneg : n < 0
    · simp [range_step, rb_scan_args_01, hconv, hneg]
    · have h0 : n = 0 := by omega
      subst h0
      simp [range_step, rb_scan_args_01, hconv]
  refine ⟨key, ?_⟩
  rw [key]
  rfl

/-- Witness of C7: the step 0.5 converts to 0, the step -1 is negative. -/
theorem range_step_rejects_witness :
    (range_step plainHost 10 true [.float (1 / 2)] (intRange 1 10 false)
      = Eff.raise (.rb_eArgError
          (if (0 : Int) < 0 then "step can't be negative" else "step can't be 0")) ∧
     (range_step plainHost 10 true [.float (1 / 2)] (intRange 1 10 false)).visited = []) ∧
    (range_step plainHost 10 true [.int (-1)] (intRange 1 10 false)
      = Eff.raise (.rb_eArgError
          (if (-1 : Int) < 0 then "step can't be negative" else "step can't be 0")) ∧
     (range_step plainHost 10 true [.int (-1)] (intRange 1 10 false)).visited = []) :=
  ⟨range_step_rejects plainHost 10 (intRange 1 10 false) (.float (1 / 2)) 0 (NUM2LONG_half plainHost) (by decide),
   range_step_rejects plainHost 10 (intRange 1 10 false) (.int (-1)) (-1) (by decide) (by decide)⟩

/-- C8: `rb_range_new(beg, end, exclude_end)` on two machine integers succeeds with an empty event
log, so without sending `<=>`; otherwise it sends `beg <=> end` once and fails with
ArgumentError "bad value for range" exactly when that comparison raises or returns `nil`, in which
case none of the three instance variables is set, and succeeds when it does not fail so; and
after a success `first`/`begin`, `last`/`end` and `exclude_end?` return the begin, the end and the
exclusivity that were given. -/
theorem rb_range_new_construct (H : Host) (addr klass : Nat) (beg end_ : Value) (excl : Bool) :
    ((FIXNUM_P beg && FIXNUM_P end_) = true →
      rb_range_new H addr klass beg end_ excl
        = (⟨[], .ret ()⟩,
           ⟨addr, klass, some beg, some end_, some (if excl then .Qtrue else .Qfalse)⟩)) ∧
    ((FIXNUM_P beg && FIXNUM_P end_) = false →
      ((rb_range_new H addr klass beg end_ excl).1.out
          = .raised (.rb_eArgError "bad value for range") ↔
        ((funcall_cmp H beg end_).out = .ret .Qnil ∨
          ∃ x, (funcall_cmp H beg end_).out = .raised x)) ∧
      ((rb_range_new H addr klass beg end_ excl).1.out
          = .raised (.rb_eArgError "bad value for range") →
        (rb_range_new H addr klass beg end_ excl).2 = ⟨addr, klass, none, none, none⟩) ∧
      ((rb_range_new H addr klass beg end_ excl).1.out
          ≠ .raised (.rb_eArgError "bad value for range") →
        rb_range_new H addr klass beg end_ excl
          = (⟨[.cmp beg end_], .ret ()⟩,
             ⟨addr, klass, some beg, some end_, some (if excl then .Qtrue else .Qfalse)⟩))) ∧
    ((rb_range_new H addr klass beg end_ excl).1.out = .ret () →
      range_first (rb_range_new H addr klass beg end_ excl).2 = beg ∧
      range_last (rb_range_new H addr klass beg end_ excl).2 = end_ ∧
      range_exclude_end_p (rb_range_new H addr klass beg end_ excl).2
        = (if excl then .Qtrue else .Qfalse)) := by
  obtain ⟨hfast, hslow⟩ := range_init_cases H (rb_obj_alloc addr klass) beg end_ excl
  simp only [rb_obj_alloc] at hfast hslow
  have hacc : range_first ⟨addr, klass, some beg, some end_,
        some (if excl then .Qtrue else .Qfalse)⟩ = beg ∧
      range_last ⟨addr, klass, some beg, some end_,
        some (if excl then .Qtrue else .Qfalse)⟩ = end_ ∧
      range_exclude_end_p ⟨addr, klass, some beg, some end_,
        some (if excl then .Qtrue else .Qfalse)⟩ = (if excl then .Qtrue else .Qfalse) := by
    cases excl <;> simp [range_first, range_last, range_exclude_end_p, rb_ivar_get, EXCL, RTEST]
  by_cases hf : (FIXNUM_P beg && FIXNUM_P end_) = true
  · have h := hfast hf
    simp only [rb_range_new, rb_obj_alloc]
    rw [h]
    refine ⟨fun _ => rfl, fun hc => ?_, fun _ => hacc⟩
    rw [hf] at hc; cases hc
  · have hf2 : (FIXNUM_P beg && FIXNUM_P end_) = false := by simpa using hf
    obtain ⟨hok, hbad⟩ := hslow hf2
    simp only [rb_range_new, rb_obj_alloc]
    refine ⟨fun hc => absurd hc hf, fun _ => ?_, ?_⟩
    · rcases funcall_cmp_shape H beg end_ with ⟨v, hv⟩ | ⟨x, hx⟩
      · by_cases hnil : v = .Qnil
        · subst hnil
          have h := hbad (Or.inl (by rw [hv]))
          rw [h]
          refine ⟨⟨fun _ => Or.inl (by rw [hv]), fun _ => rfl⟩, fun _ => rfl, fun hne => ?_⟩
          exact absurd rfl hne
        · have h := hok v (by rw [hv]) hnil
          rw [h]
          refine ⟨⟨fun hc => (by cases hc), fun hc => ?_⟩, fun hc => (by cases hc), fun _ => rfl⟩
          rcases hc with hc | ⟨x, hc⟩
          · rw [hv] at hc
            simp only [Outcome.ret.injEq] at hc
            exact absurd hc hnil
          · rw [hv] at hc; cases hc
      · have h := hbad (Or.inr ⟨x, by rw [hx]⟩)
        rw [h]
        refine ⟨⟨fun _ => Or.inr ⟨x, by rw [hx]⟩, fun _ => rfl⟩, fun _ => rfl, fun hne => ?_⟩
        exact absurd rfl hne
    · rcases funcall_cmp_shape H beg end_ with ⟨v, hv⟩ | ⟨x, hx⟩
      · by_cases hnil : v = .Qnil
        · subst hnil
          have h := hbad (Or.inl (by rw [hv]))
          rw [h]
          intro hc; cases hc
        · have h := hok v (by rw [hv]) hnil
          rw [h]
          intro _; exact hacc
      · have h := hbad (Or.inr ⟨x, by rw [hx]⟩)
        rw [h]
        intro hc; cases hc

/-- C9: on a range that is already initialized (its `begin` is defined), `initialize` fails
whatever the arguments and leaves the object as it was; called with three arguments it fails
with NameError "`initialize' called twice"; and no operation of the method table, nor
`rb_range_beg_len`, changes the begin, the end or the exclusivity flag of the receiver. -/
theorem range_initialize_twice (H : Host) (fuel : Nat) (range : RObject)
    (hinit : rb_ivar_defined range.beg = true) :
    (∀ argv, ∃ x, range_initialize H argv range = (Eff.raise x, range)) ∧
    (∀ beg end_ flags, range_initialize H [beg, end_, flags] range
      = (Eff.raise (.rb_eNameError "`initialize' called twice"), range)) ∧
    (∀ c, (Init_Range H fuel c range).2 = range) := by
  refine ⟨?_, ?_, fun c => Init_Range_receiver H fuel c range hinit⟩
  · intro argv
    match argv with
    | [] =>
      exact ⟨.rb_eArgError "wrong number of arguments",
        by simp [ range_initialize, rb_scan_args_21, Eff.raise]⟩
    | [_] =>
      exact ⟨.rb_eArgError "wrong number of arguments",
        by simp [ range_initialize, rb_scan_args_21, Eff.raise]⟩
    | [_, _] =>
      exact ⟨.rb_eNameError "`initialize' called twice",
        by simp [ range_initialize, rb_scan_args_21, Eff.raise, Eff.pure, hinit]⟩
    | [_, _, _] =>
      exact ⟨.rb_eNameError "`initialize' called twice",
        by simp [ range_initialize, rb_scan_args_21, Eff.raise, Eff.pure, hinit]⟩
    | _ :: _ :: _ :: _ :: _ =>
      exact ⟨.rb_eArgError "wrong number of arguments",
        by simp [ range_initialize, rb_scan_args_21, Eff.raise]⟩
  · intro beg end_ flags
    simp [ range_initialize, rb_scan_args_21, Eff.pure, hinit]

/-- Witness of C9 on the range `1..5`. -/
theorem range_initialize_twice_witness :
    (∀ argv, ∃ x, range_initialize plainHost argv (intRange 1 5 false)
      = (Eff.raise x, intRange 1 5 false)) ∧
    (∀ beg end_ flags, range_initialize plainHost [beg, end_, flags] (intRange 1 5 false)
      = (Eff.raise (.rb_eNameError "`initialize' called twice"), intRange 1 5 false)) ∧
    (∀ c, (Init_Range plainHost 10 c (intRange 1 5 false)).2 = intRange 1 5 false) :=
  range_initialize_twice plainHost 10 (intRange 1 5 false) rfl

/-- C10: if `a.eql?(b)` holds for two ranges, then `a.hash` equals `b.hash`, assuming that the
element hash is consistent with the element `eql?` (and that one address holds one object); and
the hash of a range is a function `f` of the hash of its begin, the hash of its end and its
exclusivity flag only. -/
theorem range_hash_eql (H : Host) (a b : RObject)
    (haddr : a.addr = b.addr → a = b)
    (hcons : ∀ x y, H.eql x y = true → H.hash x = H.hash y)
    (heql : range_eql H a (.range b) = .Qtrue) :
    range_hash H a = range_hash H b ∧
    (∃ f : Nat → Nat → Bool → Value, ∀ (H2 : Host) (r : RObject),
      range_hash H2 r = f (H2.hash (rb_ivar_get r.beg)) (H2.hash (rb_ivar_get r.end_)) (EXCL r)) := by
  constructor
  · by_cases hsame : a.addr = b.addr
    · rw [haddr hsame]
    · simp only [range_eql, hsame, if_false] at heql
      by_cases hk : b.klass = a.klass
      swap
      · simp [hk] at heql
      by_cases h1 : H.eql (rb_ivar_get a.beg) (rb_ivar_get b.beg) = true
      swap
      · simp [hk, h1] at heql
      by_cases h2 : H.eql (rb_ivar_get a.end_) (rb_ivar_get b.end_) = true
      swap
      · simp [hk, h1, h2] at heql
      by_cases h3 : EXCL a = EXCL b
      swap
      · simp [hk, h1, h2, h3] at heql
      rw [range_hash_depends, range_hash_depends, hcons _ _ h1, hcons _ _ h2, h3]
  · exact ⟨fun h1 h2 x => LONG2FIX_word (((if x then 1 else 0) ^^^ ((h1 <<< 1) % 2 ^ 64)
          ^^^ ((h2 <<< 9) % 2 ^ 64)) ^^^ ((if x then 1 else 0) <<< 24)), fun H2 r => rfl⟩

/-- Witness of C10: two distinct objects `1..5`. -/
theorem range_hash_eql_witness :
    range_hash plainHost (intRange 1 5 false) = range_hash plainHost intRange2 ∧
    (∃ f : Nat → Nat → Bool → Value, ∀ (H2 : Host) (r : RObject),
      range_hash H2 r = f (H2.hash (rb_ivar_get r.beg)) (H2.hash (rb_ivar_get r.end_)) (EXCL r)) :=
  range_hash_eql plainHost (intRange 1 5 false) intRange2 (by decide) plainHost_hash_consistent
    (by decide)

/-- C11: `a == obj` (`range_eq`) is true if and only if `obj` is a range `b` that is the same
object as `a`, or is an instance of exactly the class of `a` with `a.begin == b.begin` and
`a.end == b.end` (by `rb_equal`) and the same exclusivity flag; the answer is always true or
false. Hence two ranges of one class built from the same Integers with the same flag are equal,
wherever they are stored, and two distinct ranges that differ only in exclusivity are unequal. -/
theorem range_eq_iff (H : Host) (a : RObject) (obj : AnyObj) :
    (range_eq H a obj = .Qtrue ↔
      ∃ b, obj = .range b ∧
        (a.addr = b.addr ∨
          (b.klass = a.klass ∧
           rb_equal H (rb_ivar_get a.beg) (rb_ivar_get b.beg) = true ∧
           rb_equal H (rb_ivar_get a.end_) (rb_ivar_get b.end_) = true ∧
           EXCL a = EXCL b))) ∧
    (range_eq H a obj = .Qtrue ∨ range_eq H a obj = .Qfalse) ∧
    (∀ (addr1 addr2 klass : Nat) (x y : Int) (excl : Bool),
      range_eq H ⟨addr1, klass, some (.int x), some (.int y), some (if excl then .Qtrue else .Qfalse)⟩
        (.range ⟨addr2, klass, some (.int x), some (.int y),
          some (if excl then .Qtrue else .Qfalse)⟩) = .Qtrue) ∧
    (∀ (addr1 addr2 klass : Nat) (x y : Int), addr1 ≠ addr2 →
      range_eq H ⟨addr1, klass, some (.int x), some (.int y), some .Qfalse⟩
        (.range ⟨addr2, klass, some (.int x), some (.int y), some .Qtrue⟩) = .Qfalse) := by
  refine ⟨?_, ?_, ?_, ?_⟩
  · cases obj with
    | other v => simp [range_eq]
    | range b =>
      simp only [range_eq, AnyObj.range.injEq, exists_eq_left']
      by_cases h0 : a.addr = b.addr
      · simp [h0]
      · by_cases h1 : b.klass = a.klass <;>
        by_cases h2 : rb_equal H (rb_ivar_get a.beg) (rb_ivar_get b.beg) = true <;>
        by_cases h3 : rb_equal H (rb_ivar_get a.end_) (rb_ivar_get b.end_) = true <;>
        by_cases h4 : EXCL a = EXCL b <;>
        simp [h0, h1, h2, h3, h4]
  · cases obj with
    | other v => simp [range_eq]
    | range b =>
      simp only [range_eq]
      split_ifs <;> simp
  · intro addr1 addr2 klass x y excl
    simp [range_eq, rb_equal, rb_ivar_get, EXCL]
  · intro addr1 addr2 klass x y hne
    simp [range_eq, rb_equal, rb_ivar_get, hne, EXCL, RTEST]

/-- C12: for every range, `to_s` is the string form of begin, then `..` when the range is
inclusive and `...` when it is exclusive, then the string form of end; `inspect` is the same
with the `inspect` forms of the end points. So the range that `rb_range_new` builds from 1 and
10 prints as `1..10` when inclusive and as `1...10` when exclusive. -/
theorem range_to_s_form (H : Host) (range : RObject) :
    (range_to_s H range).1
      = (rb_obj_as_string H (rb_ivar_get range.beg)).1 ++ (if EXCL range then "..." else "..")
          ++ (rb_obj_as_string H (rb_ivar_get range.end_)).1 ∧
    (range_inspect H range).1
      = (rb_inspect H (rb_ivar_get range.beg)).1 ++ (if EXCL range then "..." else "..")
          ++ (rb_inspect H (rb_ivar_get range.end_)).1 ∧
    (range_to_s H (rb_range_new H 0 0 (.int 1) (.int 10) false).2).1 = "1..10" ∧
    (range_to_s H (rb_range_new H 0 0 (.int 1) (.int 10) true).2).1 = "1...10" := by
  refine ⟨?_, ?_, ?_, ?_⟩
  · simp only [range_to_s, range_join, take_dots]
  · simp only [range_inspect, range_join, take_dots]
  · have h := (range_init_cases H (rb_obj_alloc 0 0) (.int 1) (.int 10) false).1 (by decide)
    simp only [rb_range_new, h, range_to_s, range_join, rb_obj_as_string, rb_ivar_get,
      Option.getD, take_dots, EXCL, RTEST]
    decide
  · have h := (range_init_cases H (rb_obj_alloc 0 0) (.int 1) (.int 10) true).1 (by decide)
    simp only [rb_range_new, h, range_to_s, range_join, rb_obj_as_string, rb_ivar_get,
      Option.getD, take_dots, EXCL, RTEST]
    decide

/-- C13: for ranges with Integer bounds, `to_s` can be parsed back. The output of a range with
the bounds `b1` and `e1` splits in one way only into a part without dots, one or more dots, and
a part without dots: the parts are the decimal form of `b1`, 2 dots (3 when exclusive) and the
decimal form of `e1`. And two such ranges with the same output have the same begin, the same
end and the same exclusivity. -/
theorem range_to_s_injective (H : Host) (r1 r2 : RObject) (b1 e1 b2 e2 : Int)
    (hb1 : r1.beg = some (.int b1)) (he1 : r1.end_ = some (.int e1))
    (hb2 : r2.beg = some (.int b2)) (he2 : r2.end_ = some (.int e2)) :
    (∀ (B E : List Char) (k : Nat), (∀ c ∈ B, c ≠ '.') → (∀ c ∈ E, c ≠ '.') → 0 < k →
      (range_to_s H r1).1.data = B ++ (List.replicate k '.' ++ E) →
      B = (toString b1).data ∧ k = (if EXCL r1 then 3 else 2) ∧ E = (toString e1).data) ∧
    ((range_to_s H r1).1 = (range_to_s H r2).1 → b1 = b2 ∧ e1 = e2 ∧ EXCL r1 = EXCL r2) := by
  constructor
  · intro B E k hB hE hk h
    rw [range_to_s_int H r1 b1 e1 hb1 he1] at h
    obtain ⟨h1, h2, h3⟩ := dots_split_unique _ _ _ _ _ _ (Int_toString_no_dot b1) hB
      (Int_toString_no_dot e1) hE (by split <;> decide) hk h
    exact ⟨h1.symm, h2.symm, h3.symm⟩
  · intro h
    have hd : (range_to_s H r1).1.data = (range_to_s H r2).1.data := by rw [h]
    rw [range_to_s_int H r1 b1 e1 hb1 he1, range_to_s_int H r2 b2 e2 hb2 he2] at hd
    obtain ⟨hB, hk, hE⟩ := dots_split_unique _ _ _ _ _ _ (Int_toString_no_dot b1)
      (Int_toString_no_dot b2) (Int_toString_no_dot e1) (Int_toString_no_dot e2)
      (by split <;> decide) (by split <;> decide) hd
    refine ⟨Int_toString_inj _ _ hB, Int_toString_inj _ _ hE, ?_⟩
    cases h1 : EXCL r1 <;> cases h2 : EXCL r2 <;> simp [h1, h2] at hk ⊢

/-- Witness of C13: the range `-1...10` prints as `-1...10`, which splits into `-1`, three dots
and `10` only, and a second object that prints the same has the same bounds and flag. -/
theorem range_to_s_injective_witness :
    (range_to_s plainHost (intRange (-1) 10 true)).1 = "-1...10" ∧
    (range_to_s plainHost (intRange (-1) 10 true)).1
      = (range_to_s plainHost ⟨5, 3, some (.int (-1)), some (.int 10), some .Qtrue⟩).1 ∧
    (∀ (B E : List Char) (k : Nat), (∀ c ∈ B, c ≠ '.') → (∀ c ∈ E, c ≠ '.') → 0 < k →
      (range_to_s plainHost (intRange (-1) 10 true)).1.data = B ++ (List.replicate k '.' ++ E) →
      B = (toString (-1 : Int)).data ∧ k = (if EXCL (intRange (-1) 10 true) then 3 else 2)
        ∧ E = (toString (10 : Int)).data) ∧
    ((range_to_s plainHost (intRange (-1) 10 true)).1
        = (range_to_s plainHost ⟨5, 3, some (.int (-1)), some (.int 10), some .Qtrue⟩).1 →
      (-1 : Int) = -1 ∧ (10 : Int) = 10 ∧
        EXCL (intRange (-1) 10 true)
          = EXCL ⟨5, 3, some (.int (-1)), some (.int 10), some .Qtrue⟩) :=
  ⟨by decide, by decide,
    range_to_s_injective plainHost (intRange (-1) 10 true)
      ⟨5, 3, some (.int (-1)), some (.int 10), some .Qtrue⟩ (-1) 10 (-1) 10 rfl rfl rfl rfl⟩

/-- C14: on the generic successor path (begin is no String, does not convert to one, and is not
Numeric), `step` with a step size that converts to the long `n > 0` hands the block exactly the
elements at the positions 0, n, 2n, ... of the sequence that `each` hands the block over the
same range, starting with begin itself, and ends as `each` ends, for every amount of fuel. -/
theorem range_step_every_nth (H : Host) (range : RObject) (step : Value) (n : Int)
    (hstr : rb_check_string_type H (rb_ivar_get range.beg) = none)
    (hnum : kind_of_Numeric H (rb_ivar_get range.beg) = false)
    (hconv : NUM2LONG H step = Eff.pure n) (hn : 0 < n) :
    ∀ fuel,
      (range_step H fuel true [step] range).visited
        = everyNth n.toNat (range_each H fuel true range).visited ∧
      (range_step H fuel true [step] range).out = (range_each H fuel true range).out := by
  intro fuel
  obtain ⟨hv, ho⟩ := range_step_vs_each H range step n hstr hnum hconv hn fuel
  rw [downCounter_one _ _ (by omega)] at hv
  exact ⟨hv, ho⟩

/-- Witness of C14: over `Xs.new(1)..Xs.new(10)`, `step(2)` visits 1, 3, 5, 7, 9 and `step(3)`
visits 1, 4, 7, 10, and the call returns. -/
theorem range_step_every_nth_witness :
    ((range_step xsHost 12 true [.int 2] (xsRange 1 10 false)).visited
        = everyNth (2 : Int).toNat (range_each xsHost 12 true (xsRange 1 10 false)).visited ∧
      (range_step xsHost 12 true [.int 2] (xsRange 1 10 false)).out
        = (range_each xsHost 12 true (xsRange 1 10 false)).out) ∧
    (range_step xsHost 12 true [.int 2] (xsRange 1 10 false)).visited
      = [.obj 7 1, .obj 7 3, .obj 7 5, .obj 7 7, .obj 7 9] ∧
    (range_step xsHost 12 true [.int 3] (xsRange 1 10 false)).visited
      = [.obj 7 1, .obj 7 4, .obj 7 7, .obj 7 10] ∧
    (range_step xsHost 12 true [.int 2] (xsRange 1 10 false)).out = .ret .self :=
  ⟨range_step_every_nth xsHost (xsRange 1 10 false) (.int 2) 2 (by decide) (by decide)
      (by decide) (by decide) 12,
    by decide, by decide, by decide⟩

/-- C15 (the code diverges from the specification): for an exclusive range `b...b` of one machine
integer `b` that fits a C int, `max` without a block returns `b - 1`, although `each` returns
without a visit over that range, so that `b - 1` is not a value of the range. And for the
exclusive range `1...2**40`, whose end is a Fixnum outside the C int, `max` raises
RangeError. -/
theorem range_max_empty_exclusive (H : Host) (range : RObject) (b : Int)
    (hb : range.beg = some (.int b)) (he : range.end_ = some (.int b))
    (hx : EXCL range = true) (hf : FIXABLE b = true) (hlo : INT_MIN < b) (hhi : b ≤ INT_MAX) :
    range_max H false range = ⟨[.cmp (.int b) (.int b)], .ret (.int (b - 1))⟩ ∧
    (∀ fuel, 0 < fuel → range_each H fuel true range = ⟨[], .ret .self⟩) ∧
    range_max plainHost false (intRange 1 (2 ^ 40) true)
        = ⟨[.cmp (.int 1) (.int (2 ^ 40))],
            .raised (.rb_eRangeError "integer too big to convert to `int'")⟩ ∧
    FIXABLE (2 ^ 40) = true := by
  refine ⟨(range_max_fixnum H range b b hb he hf hf).2.2 (le_refl b) hx hlo hhi, ?_,
    by decide, by decide⟩
  intro fuel hfuel
  obtain ⟨f, rfl⟩ : ∃ f, fuel = f + 1 := ⟨fuel - 1, by omega⟩
  simp [range_each, hb, he, rb_ivar_get, rb_respond_to_succ, FIXNUM_P, hf, hx,
    range_each_fixnum_loop, Eff.bind, Eff.pure]

/-- Witness of C15: `(1...1).max` is 0 while `(1...1).each` visits nothing. -/
theorem range_max_empty_exclusive_witness :
    range_max plainHost false (intRange 1 1 true)
        = ⟨[.cmp (.int 1) (.int 1)], .ret (.int (1 - 1))⟩ ∧
    (∀ fuel, 0 < fuel → range_each plainHost fuel true (intRange 1 1 true) = ⟨[], .ret .self⟩) ∧
    range_max plainHost false (intRange 1 (2 ^ 40) true)
        = ⟨[.cmp (.int 1) (.int (2 ^ 40))],
            .raised (.rb_eRangeError "integer too big to convert to `int'")⟩ ∧
    FIXABLE (2 ^ 40) = true :=
  range_max_empty_exclusive plainHost (intRange 1 1 true) 1 rfl rfl (by decide) (by decide)
    (by decide) (by decide)

/-- C16 (amended): in the modes 0 and 2 of `rb_range_beg_len`, for a genuine range whose bounds
convert to longs and a container length `len` with `0 <= len`, every successful result has
`0 <= start <= len`, `0 <= count`, and `start + count <= len` for an exclusive range but
`start + count <= len + 1` for an inclusive one: the end is clamped to `len` before the end
point of an inclusive range is added. -/
theorem rb_range_beg_len_inside (H : Host) (range : RObject) (b e len err : Int)
    (hb : NUM2LONG H (rb_ivar_get range.beg) = Eff.pure b)
    (he : NUM2LONG H (rb_ivar_get range.end_) = Eff.pure e)
    (hlen0 : 0 ≤ len) (hlen1 : len ≤ LONG_MAX) (hmode : err = 0 ∨ err = 2)
    (res : BegLen)
    (hres : (rb_range_beg_len H (.range range) len err).out = .ret res)
    (hok : res.ret = .Qtrue) :
    ∃ start count, res.begp = some start ∧ res.lenp = some count ∧
      0 ≤ start ∧ start ≤ len ∧ 0 ≤ count ∧
      start + count ≤ len + (if EXCL range then 0 else 1) := by
  have hbl := NUM2LONG_long H _ b hb
  have hel := NUM2LONG_long H _ e he
  simp only [rb_range_beg_len] at hres
  rw [beg_len_core_of_longs H _ _ b e _ _ _ hb he] at hres
  cases hlongs : beg_len_longs b e (EXCL range) len err with
  | none =>
    rw [hlongs] at hres
    have := (out_of_range_ret H _ _ _ _ _ hres).1
    rw [this] at hok
    cases hok
  | some p =>
    obtain ⟨start, count⟩ := p
    rw [hlongs] at hres
    simp only [Eff.pure, Outcome.ret.injEq] at hres
    subst hres
    exact ⟨start, count, rfl, rfl,
      beg_len_longs_inside b e len err (EXCL range) hlen0 hlen1 hbl.1 hbl.2 hel.1 hel.2 hmode
        start count hlongs⟩

/-- Witness of C16: `2...9` against a container of length 5, mode 0, resolves to start 2 and
count 3. -/
theorem rb_range_beg_len_inside_witness :
    ∃ start count, (⟨.Qtrue, some 2, some 3⟩ : BegLen).begp = some start ∧
      (⟨.Qtrue, some 2, some 3⟩ : BegLen).lenp = some count ∧
      0 ≤ start ∧ start ≤ 5 ∧ 0 ≤ count ∧
      start + count ≤ 5 + (if EXCL (intRange 2 9 true) then 0 else 1) :=
  rb_range_beg_len_inside plainHost (intRange 2 9 true) 2 9 5 0 (by decide) (by decide)
    (by decide) (by decide) (by decide) ⟨.Qtrue, some 2, some 3⟩ (by decide) rfl

/-- Counterexample to C16 as stated: the inclusive range `0..10` against a container of length 5
resolves, in mode 0 and in mode 2, to start 0 and count 6, and 0 + 6 exceeds 5. -/
theorem rb_range_beg_len_inclusive_exceeds :
    rb_range_beg_len plainHost (.range (intRange 0 10 false)) 5 0
        = Eff.pure ⟨.Qtrue, some 0, some 6⟩ ∧
    rb_range_beg_len plainHost (.range (intRange 0 10 false)) 5 2
        = Eff.pure ⟨.Qtrue, some 0, some 6⟩ ∧
    ¬ ((0 : Int) + 6 ≤ 5) := by
  decide

/-- C17 (amended): for a genuine range whose bounds convert to the longs `b` and `e`. In the
mode 2 of `rb_range_beg_len`, a begin that, after adding `len` to a negative begin, is greater
than `len` is out of range: the call fails with RangeError and gives no slice. In the mode 1,
against a length `0 <= len`, begin is not compared with `len`: the call fails with RangeError
exactly when begin is still negative after `len` is added, and otherwise succeeds with the
start `b` (`b + len` for a negative `b`), also when that start is greater than `len`. -/
theorem rb_range_beg_len_begin_beyond (H : Host) (range : RObject) (b e len : Int)
    (hb : NUM2LONG H (rb_ivar_get range.beg) = Eff.pure b)
    (he : NUM2LONG H (rb_ivar_get range.end_) = Eff.pure e) :
    (len < (if b < 0 then b + len else b) →
      ∃ msg, rb_range_beg_len H (.range range) len 2 = Eff.raise (.rb_eRangeError msg)) ∧
    (0 ≤ len → len ≤ LONG_MAX →
      ((b < 0 ∧ b + len < 0) →
        ∃ msg, rb_range_beg_len H (.range range) len 1 = Eff.raise (.rb_eRangeError msg)) ∧
      (¬ (b < 0 ∧ b + len < 0) →
        ∃ count, rb_range_beg_len H (.range range) len 1
          = Eff.pure ⟨.Qtrue, some (if b < 0 then b + len else b), some count⟩)) := by
  have hbl := NUM2LONG_long H _ b hb
  constructor
  · intro hgt
    have hb0 : ¬ b < 0 := by
      intro hneg
      rw [if_pos hneg] at hgt
      omega
    rw [if_neg hb0] at hgt
    have hnone : beg_len_longs b e (EXCL range) len 2 = none := by
      simp [beg_len_longs, hb0, hgt]
    simp only [rb_range_beg_len]
    rw [beg_len_core_of_longs H _ _ b e _ _ _ hb he, hnone]
    obtain ⟨msg, hmsg⟩ := out_of_range_eq H (rb_ivar_get range.beg) (rb_ivar_get range.end_)
      (EXCL range) 2
    exact ⟨msg, by rw [hmsg]; simp⟩
  · intro hlen0 hlen1
    obtain ⟨hout, hin⟩ := beg_len_longs_mode1 b e len (EXCL range) hlen0 hlen1 hbl.1
    constructor
    · intro hneg
      simp only [rb_range_beg_len]
      rw [beg_len_core_of_longs H _ _ b e _ _ _ hb he, hout hneg]
      obtain ⟨msg, hmsg⟩ := out_of_range_eq H (rb_ivar_get range.beg)
        (rb_ivar_get range.end_) (EXCL range) 1
      exact ⟨msg, by rw [hmsg]; simp⟩
    · intro hnot
      obtain ⟨count, hcount⟩ := hin hnot
      refine ⟨count, ?_⟩
      simp only [rb_range_beg_len]
      rw [beg_len_core_of_longs H _ _ b e _ _ _ hb he, hcount]

/-- Witness of C17: `7..9` against a container of length 5 fails with RangeError in the mode 2
and succeeds with the start 7 in the mode 1; `-7..-1` against the same container fails with
RangeError in the mode 1. -/
theorem rb_range_beg_len_begin_beyond_witness :
    (∃ msg, rb_range_beg_len plainHost (.range (intRange 7 9 false)) 5 2
      = Eff.raise (.rb_eRangeError msg)) ∧
    (∃ count, rb_range_beg_len plainHost (.range (intRange 7 9 false)) 5 1
      = Eff.pure ⟨.Qtrue, some (if (7 : Int) < 0 then 7 + 5 else 7), some count⟩) ∧
    (∃ msg, rb_range_beg_len plainHost (.range (intRange (-7) (-1) false)) 5 1
      = Eff.raise (.rb_eRangeError msg)) :=
  ⟨(rb_range_beg_len_begin_beyond plainHost (intRange 7 9 false) 7 9 5 (by decide)
      (by decide)).1 (by decide),
   ((rb_range_beg_len_begin_beyond plainHost (intRange 7 9 false) 7 9 5 (by decide)
      (by decide)).2 (by decide) (by decide)).2 (by decide),
   ((rb_range_beg_len_begin_beyond plainHost (intRange (-7) (-1) false) (-7) (-1) 5 (by decide)
      (by decide)).2 (by decide) (by decide)).1 (by decide)⟩

/-- Counterexample to C17 as stated: in the mode 1 the range `7..9` against a container of
length 5 is not out of range: the call succeeds with start 7 and count 3. -/
theorem rb_range_beg_len_mode1_no_check :
    rb_range_beg_len plainHost (.range (intRange 7 9 false)) 5 1
      = Eff.pure ⟨.Qtrue, some 7, some 3⟩ := by
  decide

/-- C18 (the code diverges from the specification): on the numeric path of `include?` (a bound is
a Fixnum or Numeric), when a bound converts by `to_int` and the comparison of begin with the
candidate returns nil, or that comparison passes and the comparison of the candidate with end
returns nil, `include?` does not return false: it goes back to the label `numeric_range` again
and again and has not returned after any number of passes. -/
theorem range_include_incomparable_never_returns (H : Host) (range : RObject) (val : Value)
    (hnv : (FIXNUM_P (rb_ivar_get range.beg) || FIXNUM_P (rb_ivar_get range.end_)
      || kind_of_Numeric H (rb_ivar_get range.beg)
      || kind_of_Numeric H (rb_ivar_get range.end_)) = true)
    (hconv : (!NIL_P (rb_check_to_integer H (rb_ivar_get range.beg) "to_int")
      || !NIL_P (rb_check_to_integer H (rb_ivar_get range.end_) "to_int")) = true)
    (hinc : (funcall_cmp H (rb_ivar_get range.beg) val).out = .ret .Qnil ∨
      ((∃ t, (r_le H (rb_ivar_get range.beg) val).out = .ret t) ∧
        (funcall_cmp H val (rb_ivar_get range.end_)).out = .ret .Qnil)) :
    ∀ fuel, (range_include H fuel range val).out = .outOfFuel := by
  intro fuel
  have htest := numeric_range_test_incomparable H range _ _ val hinc
  simp only [range_include, hnv, if_true]
  exact include_loop_stuck H range _ _ val htest hconv fuel

/-- Witness of C18: `(1..10).include?("a")` has not returned after 1000 passes. -/
theorem range_include_incomparable_never_returns_witness :
    (range_include plainHost 1000 (intRange 1 10 false) (.str "a")).out = .outOfFuel :=
  range_include_incomparable_never_returns plainHost (intRange 1 10 false) (.str "a")
    (by decide) (by decide) (Or.inl (by decide)) 1000
/-- C19: on the generic successor path (not two Fixnums, begin not a String and responding to
`succ`), `each` drives a cursor from begin by `succ`. With `orbit` the successive cursors, the
first `k` of which compare LESS with the end while the next one compares as `r`, which is not
LESS, `each` returns the range after exactly these events: for each of the `k` cursors the
comparison, the visit and the call of `succ`; then the comparison of cursor `k`; then, only for
an inclusive range and `r` EQUAL, one visit of cursor `k`, with no call of `succ` on it. So an
exclusive range visits while the comparison is LESS, an inclusive one while it is LESS or EQUAL,
and a GREATER or INCOMPARABLE result ends the loop with no further visit and no error. In
particular a range whose bounds are incomparable visits nothing. -/
theorem range_each_cursor (H : Host) (range : RObject) (b e : Value)
    (hb : rb_ivar_get range.beg = b) (he : rb_ivar_get range.end_ = e)
    (hfix : (FIXNUM_P b && FIXNUM_P e) = false) (hstr : ∀ s, b ≠ .str s)
    (hresp : rb_respond_to_succ H b = true) :
    (∀ (orbit : Nat → Value) (k : Nat) (r : ComparisonResult), b = orbit 0 →
      (∀ j, j < k → (funcall_succ H (orbit j)).out = .ret (orbit (j + 1))) →
      (∀ j, j < k → compareResult H (orbit j) e = some .LESS) →
      compareResult H (orbit k) e = some r → r ≠ .LESS →
      ∀ fuel, k < fuel →
        range_each H fuel true range
          = ⟨orbitLog orbit e 0 k ++ [.cmp (orbit k) e]
              ++ (if EXCL range = false ∧ r = .EQUAL then [.yield (orbit k)] else []),
             .ret .self⟩) ∧
    (compareResult H b e = some .INCOMPARABLE → ∀ fuel, 0 < fuel →
      range_each H fuel true range = ⟨[.cmp b e], .ret .self⟩) := by
  refine ⟨fun orbit k r h0 hsucc hless hlast hr fuel hfuel =>
    range_each_orbit H range b e hb he hfix hstr hresp orbit k r h0 hsucc hless hlast hr
      fuel hfuel, ?_⟩
  intro hinc fuel hfuel
  have h := range_each_orbit H range b e hb he hfix hstr hresp (fun _ => b) 0 .INCOMPARABLE rfl
    (fun j hj => absurd hj (Nat.not_lt_zero j)) (fun j hj => absurd hj (Nat.not_lt_zero j))
    hinc (by decide) fuel hfuel
  simpa [orbitLog] using h

/-- Witness of C19: `Xs.new(3)..Xs.new(6)` visits the cursors 3, 4, 5 with a call of `succ`
after each, then visits 6, which compares EQUAL, and stops; `(1..10)` from an Integer to a
String, which are incomparable, visits nothing. -/
theorem range_each_cursor_witness :
    range_each xsHost 10 true (xsRange 3 6 false)
      = ⟨[.cmp (.obj 7 3) (.obj 7 6), .yield (.obj 7 3), .succ (.obj 7 3),
          .cmp (.obj 7 4) (.obj 7 6), .yield (.obj 7 4), .succ (.obj 7 4),
          .cmp (.obj 7 5) (.obj 7 6), .yield (.obj 7 5), .succ (.obj 7 5),
          .cmp (.obj 7 6) (.obj 7 6), .yield (.obj 7 6)], .ret .self⟩ ∧
    range_each xsHost 10 true (xsRange 3 6 true)
      = ⟨[.cmp (.obj 7 3) (.obj 7 6), .yield (.obj 7 3), .succ (.obj 7 3),
          .cmp (.obj 7 4) (.obj 7 6), .yield (.obj 7 4), .succ (.obj 7 4),
          .cmp (.obj 7 5) (.obj 7 6), .yield (.obj 7 5), .succ (.obj 7 5),
          .cmp (.obj 7 6) (.obj 7 6)], .ret .self⟩ ∧
    range_each plainHost 10 true ⟨0, 0, some (.int 1), some (.str "z"), some .Qfalse⟩
      = ⟨[.cmp (.int 1) (.str "z")], .ret .self⟩ :=
  ⟨(range_each_cursor xsHost (xsRange 3 6 false) (.obj 7 3) (.obj 7 6) rfl rfl (by decide)
      (by intro s; exact Value.noConfusion) (by decide)).1
      (fun j => .obj 7 (3 + j)) 3 .EQUAL rfl (by decide) (by decide) (by decide) (by decide)
      10 (by decide),
   by decide,
   by decide⟩

/-- C20 (amended): in the generic successor path of `step`, with a step size that converts to
the long `n > 0`, the loop of `range_each_func` runs `step_i` with the down-counter initialized
to 1, not to `n`: `step` visits what a down-counter started at 1 lets through of the values that
`each` visits. One round of `step_i` with the counter at `c` decrements it and visits the
element only when the counter reaches zero (`c = 1`), after which the counter is reset to
`n`. -/
theorem range_step_down_counter (H : Host) (range : RObject) (step : Value) (n : Int)
    (hstr : rb_check_string_type H (rb_ivar_get range.beg) = none)
    (hnum : kind_of_Numeric H (rb_ivar_get range.beg) = false)
    (hconv : NUM2LONG H step = Eff.pure n) (hn : 0 < n) :
    (∀ fuel, rb_respond_to_succ H (rb_ivar_get range.beg) = true →
      range_step H fuel true [step] range
        = (range_each_func H fuel range step_i (rb_ivar_get range.beg)
            (rb_ivar_get range.end_) (1, n)).bind (fun _ => Eff.pure .self)) ∧
    (∀ fuel,
      (range_step H fuel true [step] range).visited
        = downCounter n.toNat 1 (range_each H fuel true range).visited) ∧
    (∀ (v : Value) (c : Int), 0 < c → c ≤ n →
      step_i v (c, n) = if c = 1 then ⟨[.yield v], .ret (n, n)⟩ else ⟨[], .ret (c - 1, n)⟩) := by
  have hmax := (NUM2LONG_long H step n hconv).2
  refine ⟨fun fuel hr => ?_,
    fun fuel => (range_step_vs_each H range step n hstr hnum hconv hn fuel).1, ?_⟩
  · rw [range_step_generic_eq H fuel range step n hstr hnum hconv hn, if_pos hr]
  intro v c hc hcn
  have h := step_i_eq v c.toNat n.toNat (by omega) (by omega) (by
    rw [Int.toNat_of_nonneg (by omega)]; exact hmax)
  rw [Int.toNat_of_nonneg (by omega : (0 : Int) ≤ c),
    Int.toNat_of_nonneg (by omega : (0 : Int) ≤ n)] at h
  rw [h]
  by_cases h1 : c = 1
  · subst h1
    simp
  · have h2 : ¬ c.toNat - 1 = 0 := by omega
    have h3 : ((c.toNat - 1 : Nat) : Int) = c - 1 := by omega
    simp [h1, h2, h3]

/-- Witness of C20: `step(3)` over `Xs.new(1)..Xs.new(10)`. -/
theorem range_step_down_counter_witness :
    (∀ fuel, rb_respond_to_succ xsHost (rb_ivar_get (xsRange 1 10 false).beg) = true →
      range_step xsHost fuel true [.int 3] (xsRange 1 10 false)
        = (range_each_func xsHost fuel (xsRange 1 10 false) step_i
            (rb_ivar_get (xsRange 1 10 false).beg)
            (rb_ivar_get (xsRange 1 10 false).end_) (1, 3)).bind (fun _ => Eff.pure .self)) ∧
    (∀ fuel,
      (range_step xsHost fuel true [.int 3] (xsRange 1 10 false)).visited
        = downCounter (3 : Int).toNat 1
            (range_each xsHost fuel true (xsRange 1 10 false)).visited) ∧
    (∀ (v : Value) (c : Int), 0 < c → c ≤ 3 →
      step_i v (c, 3) = if c = 1 then ⟨[.yield v], .ret (3, 3)⟩ else ⟨[], .ret (c - 1, 3)⟩) :=
  range_step_down_counter xsHost (xsRange 1 10 false) (.int 3) 3 (by decide) (by decide)
    (by decide) (by decide)

/-- Counterexample to C20 as stated: over `Xs.new(1)..Xs.new(10)`, `step(3)` visits 1, 4, 7, 10,
whereas a down-counter initialized to the step size 3 would let 3, 6, 9 through. -/
theorem range_step_counter_not_from_step_size :
    (range_step xsHost 12 true [.int 3] (xsRange 1 10 false)).visited
        = [.obj 7 1, .obj 7 4, .obj 7 7, .obj 7 10] ∧
    downCounter 3 3 (range_each xsHost 12 true (xsRange 1 10 false)).visited
        = [.obj 7 3, .obj 7 6, .obj 7 9] ∧
    (range_step xsHost 12 true [.int 3] (xsRange 1 10 false)).visited
        ≠ downCounter 3 3 (range_each xsHost 12 true (xsRange 1 10 false)).visited := by
  decide

/-- C21 (the code diverges from the specification): for a range with a Float begin `b`, `step`
with a numeric step size `s` with `0 < s < 1`, such as 0.5, does not visit `b`, `b + s`, ...: the
step size is converted to a C long before the bounds are looked at, the long is 0, and the call
fails with ArgumentError "step can't be 0" with an empty event log, at every amount of fuel. A
numeric step size `s > 0` that converts to a long `n > 0`, such as 1.5, is not rejected: the
call is the numeric loop of `range_step` from `b`, which compares with the end and adds the step
size itself, not the long. -/
theorem range_step_fraction_rejected (H : Host) (range : RObject) (b : ℚ) (ev : Value)
    (hb : range.beg = some (.float b)) (he : range.end_ = some ev) :
    (∀ (sv : Value) (s : ℚ), numVal sv = some s → 0 < s → s < 1 →
      ∀ fuel, range_step H fuel true [sv] range
        = ⟨[], .raised (.rb_eArgError "step can't be 0")⟩) ∧
    (∀ (sv : Value) (s : ℚ) (n : Int), numVal sv = some s → 0 < s →
      NUM2LONG H sv = Eff.pure n → 0 < n →
      ∀ fuel, range_step H fuel true [sv] range
        = (range_step_numeric_loop H (if EXCL range then "<" else "<=") ev sv fuel
            (.float b)).bind (fun _ => Eff.pure .self)) := by
  constructor
  · intro sv s hsv h0 h1 fuel
    have hconv := NUM2LONG_fraction H sv s hsv h0 h1
    have key : range_step H fuel true [sv] range
        = Eff.raise (.rb_eArgError "step can't be 0") := by
      simp [range_step, rb_scan_args_01, hconv]
    rw [key]
    rfl
  · intro sv s n hsv hs hconv hn fuel
    exact range_step_numeric_eq H fuel range b ev sv s n hb he hsv hs hconv hn

/-- Witness of C21: `(1.0..2.0).step(0.5)` fails with "step can't be 0" and no event, whereas
`(1.0..5.0).step(1.5)`, whose step size converts to the long 1, runs the numeric loop. -/
theorem range_step_fraction_rejected_witness :
    range_step plainHost 100 true [.float (1 / 2)] (floatRange 1 2 false)
      = ⟨[], .raised (.rb_eArgError "step can't be 0")⟩ ∧
    range_step plainHost 100 true [.float (3 / 2)] (floatRange 1 5 false)
      = (range_step_numeric_loop plainHost (if EXCL (floatRange 1 5 false) then "<" else "<=")
          (.float 5) (.float (3 / 2)) 100 (.float 1)).bind (fun _ => Eff.pure .self) :=
  ⟨(range_step_fraction_rejected plainHost (floatRange 1 2 false) 1 (.float 2) rfl rfl).1
      (.float (1 / 2)) (1 / 2) rfl (by norm_num) (by norm_num) 100,
   (range_step_fraction_rejected plainHost (floatRange 1 5 false) 1 (.float 5) rfl rfl).2
      (.float (3 / 2)) (3 / 2) 1 rfl (by norm_num) (NUM2LONG_three_halves plainHost)
      (by decide) 100⟩

/-- C22: for a range with machine-integer bounds, and for a range on the generic successor path
(begin is no String, does not convert to one, and is not Numeric), `step` with the step size
omitted or with a step size that converts to the long 1 hands the block exactly the same
sequence of values as `each` does, and ends as `each` ends, for every amount of fuel. -/
theorem range_step_one_eq_each (H : Host) (range : RObject) (argv : List Value)
    (hargv : argv = [] ∨ ∃ step, argv = [step] ∧ NUM2LONG H step = Eff.pure 1)
    (hpath :
      (∃ b e : Int, range.beg = some (.int b) ∧ range.end_ = some (.int e) ∧
        FIXABLE b = true ∧ FIXABLE e = true) ∨
      (rb_check_string_type H (rb_ivar_get range.beg) = none ∧
        kind_of_Numeric H (rb_ivar_get range.beg) = false)) :
    ∀ fuel,
      (range_step H fuel true argv range).visited = (range_each H fuel true range).visited ∧
      (range_step H fuel true argv range).out = (range_each H fuel true range).out := by
  obtain ⟨step, hstep, hconv⟩ : ∃ step, (∀ fuel, range_step H fuel true argv range
      = range_step H fuel true [step] range) ∧ NUM2LONG H step = Eff.pure 1 := by
    rcases hargv with h | ⟨step, h, hc⟩
    · subst h
      exact ⟨.int 1, fun fuel => range_step_default H fuel range, NUM2LONG_one H⟩
    · subst h
      exact ⟨step, fun _ => rfl, hc⟩
  intro fuel
  rw [hstep]
  rcases hpath with ⟨b, e, hb, he, hfb, hfe⟩ | ⟨hstr, hnum⟩
  · rw [range_step_one_fixnum H range step b e hconv hb he hfb hfe fuel]
    exact ⟨rfl, rfl⟩
  · obtain ⟨hv, ho⟩ := range_step_vs_each H range step 1 hstr hnum hconv (by decide) fuel
    rw [show (1 : Int).toNat = 1 from rfl, downCounter_one_one] at hv
    exact ⟨hv, ho⟩

/-- Witness of C22: over `1..5`, `step(1)` visits what `each` visits, namely 1, 2, 3, 4, 5; over
`Xs.new(1)..Xs.new(4)`, `step` without a step size visits what `each` visits, namely the four
objects. -/
theorem range_step_one_eq_each_witness :
    ((range_step plainHost 10 true [.int 1] (intRange 1 5 false)).visited
        = (range_each plainHost 10 true (intRange 1 5 false)).visited ∧
      (range_step plainHost 10 true [.int 1] (intRange 1 5 false)).out
        = (range_each plainHost 10 true (intRange 1 5 false)).out) ∧
    (range_each plainHost 10 true (intRange 1 5 false)).visited
      = [.int 1, .int 2, .int 3, .int 4, .int 5] ∧
    ((range_step xsHost 10 true [] (xsRange 1 4 false)).visited
        = (range_each xsHost 10 true (xsRange 1 4 false)).visited ∧
      (range_step xsHost 10 true [] (xsRange 1 4 false)).out
        = (range_each xsHost 10 true (xsRange 1 4 false)).out) ∧
    (range_each xsHost 10 true (xsRange 1 4 false)).visited
      = [.obj 7 1, .obj 7 2, .obj 7 3, .obj 7 4] :=
  ⟨range_step_one_eq_each plainHost (intRange 1 5 false) [.int 1]
      (Or.inr ⟨.int 1, rfl, by decide⟩) (Or.inl ⟨1, 5, rfl, rfl, by decide, by decide⟩) 10,
   by decide,
   range_step_one_eq_each xsHost (xsRange 1 4 false) [] (Or.inl rfl)
      (Or.inr ⟨by decide, by decide⟩) 10,
   by decide⟩
end MatzRuby
